import Mathlib

/-!
Verification of the MessageFormat 2.0 engine (go.expect.digital/mf2):
a shallow embedding of the AST data model and validator (parse/ast.go),
the canonical printer, and the template evaluator (template/template.go
with the registry functions of template/registry_string.go and
template/registry_number.go), together with theorems settling the
specification claims.

Conventions of the embedding:
  * Go `float64` values are embedded as `GoFloat`: a finite value is an
    exact dyadic rational `(-1)^neg * m * 2^e`; infinities and NaN are
    separate constructors.  Machine arithmetic never occurs on these
    values in the modelled code paths; only exact comparisons and
    decimal rendering do, and those factor through the rational value.
  * Go errors are abstracted to the list of sentinel error kinds present
    in the (wrapped / joined) error chain, in order of joining; message
    text of non-sentinel errors is kept verbatim in the `other` kind.
    `errors.Is e sentinel` is membership; a nil error is the empty list.
  * Maps built from AST-ordered inserts are association lists.
-/

set_option maxRecDepth 20000

namespace MF2

/-- GoFloat is the embedding of Go float64: finite values are exact dyadic
rationals `(-1)^neg * m * 2^e`; infinities and NaN are kept apart.  A
value is well-formed when `(2^52 ≤ m < 2^53 ∧ -1074 ≤ e ≤ 971)` (normal),
`(m < 2^52 ∧ e = -1074)` (subnormal) or `m = 0`. -/
inductive GoFloat where
  | finite (neg : Bool) (m : Nat) (e : Int)
  | inf (neg : Bool)
  | nan
deriving DecidableEq, Repr

/-- Well-formedness of a finite float64 mantissa/exponent pair. -/
def GoFloat.wf (m : Nat) (e : Int) : Prop :=
  (2 ^ 52 ≤ m ∧ m < 2 ^ 53 ∧ -1074 ≤ e ∧ e ≤ 971) ∨ (m < 2 ^ 52 ∧ e = -1074)

instance (m : Nat) (e : Int) : Decidable (GoFloat.wf m e) := by
  unfold GoFloat.wf; infer_instance

-- ---------------------------------------------------------------------------
-- AST data model (parse/ast.go)
-- ---------------------------------------------------------------------------

/-- Identifier (ast.go `Identifier`): optional namespace and a name. -/
structure Identifier where
  ns : String
  name : String
deriving DecidableEq, Repr

/-- Literal (ast.go): QuotedLiteral, NameLiteral or NumberLiteral. -/
inductive Literal where
  | quotedLiteral (s : String)
  | nameLiteral (s : String)
  | numberLiteral (f : GoFloat)
deriving DecidableEq, Repr

/-- Value (ast.go `Value`): a Literal or a Variable. -/
inductive Value where
  | lit (l : Literal)
  | Variable (name : String)
deriving DecidableEq, Repr

/-- ReservedBody (ast.go): QuotedLiteral or ReservedText. -/
inductive ReservedBody where
  | quotedLiteral (s : String)
  | reservedText (s : String)
deriving DecidableEq, Repr

/-- Option node (ast.go `Option`): `identifier = value` on an annotation. -/
structure OptNode where
  value : Value
  identifier : Identifier
deriving DecidableEq, Repr

/-- Attribute (ast.go `Attribute`): `@identifier` with optional value. -/
structure Attribute where
  value : Option Value
  identifier : Identifier
deriving DecidableEq, Repr

/-- Annotation (ast.go `Annotation` interface): Function,
PrivateUseAnnotation or ReservedAnnotation. -/
inductive Annot where
  | function (identifier : Identifier) (options : List OptNode)
  | privateUse (start : Char) (body : List ReservedBody)
  | reserved (start : Char) (body : List ReservedBody)
deriving DecidableEq, Repr

/-- Expression (ast.go `Expression`): optional operand, optional
annotation, attributes. -/
structure Expression where
  operand : Option Value
  annot : Option Annot
  attributes : List Attribute
deriving DecidableEq, Repr

/-- Markup kind (ast.go `MarkupType`). -/
inductive MarkupType where
  | unspecified
  | mopen
  | mclose
  | selfClose
deriving DecidableEq, Repr

/-- Markup (ast.go `Markup`). -/
structure Markup where
  identifier : Identifier
  options : List OptNode
  attributes : List Attribute
  typ : MarkupType
deriving DecidableEq, Repr

/-- PatternPart (ast.go `PatternPart` interface): Text, Expression or
Markup. -/
inductive PatternPart where
  | text (s : String)
  | expression (e : Expression)
  | markup (m : Markup)
deriving DecidableEq, Repr

/-- VariantKey (ast.go `VariantKey` interface): a Literal or the
CatchAllKey `*`. -/
inductive VariantKey where
  | catchAllKey
  | lit (l : Literal)
deriving DecidableEq, Repr

/-- Variant (ast.go `Variant`): keys and a quoted pattern. -/
structure Variant where
  keys : List VariantKey
  quotedPattern : List PatternPart
deriving DecidableEq, Repr

/-- Matcher (ast.go `Matcher`): selectors and variants. -/
structure Matcher where
  matchStatements : List Expression
  variants : List Variant
deriving DecidableEq, Repr

/-- Declaration (ast.go `Declaration` interface). -/
inductive Declaration where
  | localDeclaration (v : String) (expression : Expression)
  | inputDeclaration (e : Expression)
  | reservedStatement (keyword : String) (body : List ReservedBody)
      (expressions : List Expression)
deriving DecidableEq, Repr

/-- ComplexBody (ast.go `ComplexBody` interface): QuotedPattern or
Matcher. -/
inductive ComplexBody where
  | quotedPattern (parts : List PatternPart)
  | matcher (m : Matcher)
deriving DecidableEq, Repr

/-- Message (ast.go `Message` interface): SimpleMessage or
ComplexMessage. -/
inductive Message where
  | simpleMessage (parts : List PatternPart)
  | complexMessage (declarations : List Declaration) (body : ComplexBody)
deriving DecidableEq, Repr

/-- AST (ast.go `AST`): the message may be absent (nil). -/
structure AST where
  message : Option Message
deriving DecidableEq, Repr

-- ---------------------------------------------------------------------------
-- Validator (ast.go `validate` methods).
--
-- The Go validators return an error (with a dotted path); success/failure
-- is all the claims consult, so the embedding returns Bool: `true` means
-- the Go validate method returns nil.
-- ---------------------------------------------------------------------------

/-- Modelled from the spec: `isPrivateStart` lives in the parser file that
is not under src/; the spec fixes the private-use sigil set to `^`, `&`. -/
def isPrivateStart (c : Char) : Bool := c == '^' || c == '&'

/-- Modelled from the spec: `isReservedStart` lives in the parser file that
is not under src/; the spec fixes the reserved sigil set to
`! @ # % * < > ? ~`. -/
def isReservedStart (c : Char) : Bool :=
  c == '!' || c == '@' || c == '#' || c == '%' || c == '*' ||
  c == '<' || c == '>' || c == '?' || c == '~'

/-- Identifier.validate: the name must be non-empty. -/
def Identifier.validate (i : Identifier) : Bool := !(i.name == "")

/-- Literal validate: NameLiteral must be non-empty; NumberLiteral must be
finite and not NaN; QuotedLiteral always validates. -/
def Literal.validate : Literal → Bool
  | .quotedLiteral _ => true
  | .nameLiteral s => !(s == "")
  | .numberLiteral f =>
    match f with
    | .finite _ _ _ => true
    | .inf _ => false
    | .nan => false

/-- Value validate: Variable name must be non-empty. -/
def Value.validate : Value → Bool
  | .lit l => l.validate
  | .Variable v => !(v == "")

/-- ReservedBody validate: ReservedText must be non-empty. -/
def ReservedBody.validate : ReservedBody → Bool
  | .quotedLiteral _ => true
  | .reservedText s => !(s == "")

/-- Option validate: identifier and value must validate (the value is
required in the source; the embedding makes it structurally present). -/
def OptNode.validate (o : OptNode) : Bool :=
  o.identifier.validate && o.value.validate

/-- Attribute validate: identifier validates; value, when present,
validates. -/
def Attribute.validate (a : Attribute) : Bool :=
  a.identifier.validate && a.value.all Value.validate

/-- Annotation validate: function identifier/options; sigil-set membership
for private-use and reserved annotations. -/
def Annot.validate : Annot → Bool
  | .function i opts => i.validate && opts.all OptNode.validate
  | .privateUse start body => isPrivateStart start && body.all ReservedBody.validate
  | .reserved start body => isReservedStart start && body.all ReservedBody.validate

/-- Expression.validate: at least one of operand or annotation, and each
constituent validates. -/
def Expression.validate (e : Expression) : Bool :=
  (e.operand.isSome || e.annot.isSome) &&
  e.operand.all Value.validate &&
  e.annot.all Annot.validate &&
  e.attributes.all Attribute.validate

/-- Markup.validate. -/
def Markup.validate (m : Markup) : Bool :=
  m.identifier.validate && m.options.all OptNode.validate &&
  m.attributes.all Attribute.validate

/-- PatternPart validate. -/
def PatternPart.validate : PatternPart → Bool
  | .text _ => true
  | .expression e => e.validate
  | .markup m => m.validate

/-- VariantKey validate. -/
def VariantKey.validate : VariantKey → Bool
  | .catchAllKey => true
  | .lit l => l.validate

/-- Variant.validate: at least one key; keys and pattern validate.  Note
the arity of `keys` is NOT compared to anything here. -/
def Variant.validate (v : Variant) : Bool :=
  !v.keys.isEmpty && v.keys.all VariantKey.validate &&
  v.quotedPattern.all PatternPart.validate

/-- Matcher.validate: at least one match statement and one variant, then
element-wise validation.  The source contains no check that a variant's
key count equals the selector count. -/
def Matcher.validate (m : Matcher) : Bool :=
  !m.matchStatements.isEmpty && !m.variants.isEmpty &&
  m.matchStatements.all Expression.validate &&
  m.variants.all Variant.validate

/-- Declaration validate.  LocalDeclaration mirrors the source exactly: it
validates the initializing expression twice and never validates the
declared variable (ast.go lines 447-457). -/
def Declaration.validate : Declaration → Bool
  | .localDeclaration _ e => e.validate && e.validate
  | .inputDeclaration e =>
    e.operand.isSome &&
    (match e.operand with
     | some (.Variable _) => true
     | _ => false) &&
    e.validate
  | .reservedStatement kw body exprs =>
    !(kw == "") &&
    !(kw == "match" || kw == "local" || kw == "input") &&
    !exprs.isEmpty &&
    body.all ReservedBody.validate &&
    exprs.all Expression.validate

/-- ComplexBody validate. -/
def ComplexBody.validate : ComplexBody → Bool
  | .quotedPattern parts => parts.all PatternPart.validate
  | .matcher m => m.validate

/-- Message validate. -/
def Message.validate : Message → Bool
  | .simpleMessage parts => parts.all PatternPart.validate
  | .complexMessage decls body => body.validate && decls.all Declaration.validate

/-- AST.validate: the message is required. -/
def AST.validate (a : AST) : Bool :=
  match a.message with
  | none => false
  | some m => m.validate

end MF2

namespace MF2

-- ---------------------------------------------------------------------------
-- Derived structural observations used to state claims C6 and C7.
-- ---------------------------------------------------------------------------

/-- Does every variant of every matcher in the message have exactly as many
keys as the matcher has selectors? -/
def Message.matcherArityOK : Message → Bool
  | .simpleMessage _ => true
  | .complexMessage _ body =>
    match body with
    | .quotedPattern _ => true
    | .matcher m =>
      m.variants.all (fun v => v.keys.length == m.matchStatements.length)

/-- Matcher arity consistency of a whole AST. -/
def AST.matcherArityOK (a : AST) : Bool :=
  a.message.all Message.matcherArityOK

/-- Variable names occurring in a Value. -/
def Value.variableNames : Value → List String
  | .lit _ => []
  | .Variable v => [v]

/-- Variable names occurring in an option's value. -/
def OptNode.variableNames (o : OptNode) : List String :=
  o.value.variableNames

/-- Variable names occurring in an attribute's value. -/
def Attribute.variableNames (a : Attribute) : List String :=
  match a.value with
  | some v => v.variableNames
  | none => []

/-- Variable names occurring in an annotation (via function options). -/
def Annot.variableNames : Annot → List String
  | .function _ opts => opts.flatMap OptNode.variableNames
  | .privateUse _ _ => []
  | .reserved _ _ => []

/-- Variable names occurring in an expression. -/
def Expression.variableNames (e : Expression) : List String :=
  (match e.operand with | some v => v.variableNames | none => []) ++
  (match e.annot with | some a => a.variableNames | none => []) ++
  e.attributes.flatMap Attribute.variableNames

/-- Variable names occurring in a markup node. -/
def Markup.variableNames (m : Markup) : List String :=
  m.options.flatMap OptNode.variableNames ++
  m.attributes.flatMap Attribute.variableNames

/-- Variable names occurring in a pattern part. -/
def PatternPart.variableNames : PatternPart → List String
  | .text _ => []
  | .expression e => e.variableNames
  | .markup m => m.variableNames

/-- Variable names occurring in a variant's pattern. -/
def Variant.variableNames (v : Variant) : List String :=
  v.quotedPattern.flatMap PatternPart.variableNames

/-- Variable names occurring in a declaration, including the declared name
of a local declaration. -/
def Declaration.variableNames : Declaration → List String
  | .localDeclaration v e => v :: e.variableNames
  | .inputDeclaration e => e.variableNames
  | .reservedStatement _ _ exprs => exprs.flatMap Expression.variableNames

/-- Variable names occurring in a complex body. -/
def ComplexBody.variableNames : ComplexBody → List String
  | .quotedPattern parts => parts.flatMap PatternPart.variableNames
  | .matcher m =>
    m.matchStatements.flatMap Expression.variableNames ++
    m.variants.flatMap Variant.variableNames

/-- Variable names occurring in a message. -/
def Message.variableNames : Message → List String
  | .simpleMessage parts => parts.flatMap PatternPart.variableNames
  | .complexMessage decls body =>
    decls.flatMap Declaration.variableNames ++ body.variableNames

/-- Variable names occurring anywhere in an AST. -/
def AST.variableNames (a : AST) : List String :=
  match a.message with
  | some m => m.variableNames
  | none => []

-- ---------------------------------------------------------------------------
-- Concrete ASTs used by claims C6 / C7.
-- ---------------------------------------------------------------------------

/-- A matcher with ONE selector whose single variant carries TWO keys:
`.match \x7b $x \x7d a b \x7b\x7bhi\x7d\x7d` as an AST. -/
def astC6 : AST :=
  ⟨some (.complexMessage []
    (.matcher ⟨[⟨some (.Variable "x"), none, []⟩],
      [⟨[.lit (.nameLiteral "a"), .lit (.nameLiteral "b")], [.text "hi"]⟩]⟩))⟩

/-- A well-formed matcher used to witness the amended C6 statement. -/
def matcherC6w : Matcher :=
  ⟨[⟨some (.Variable "x"), none, []⟩],
   [⟨[.lit (.nameLiteral "a")], [.text "hi"]⟩]⟩

/-- The AST wrapping `matcherC6w`. -/
def astC6w : AST := ⟨some (.complexMessage [] (.matcher matcherC6w))⟩

/-- `.local $ = \x7b x \x7d \x7b\x7bok\x7d\x7d`: a local declaration whose
declared variable has the EMPTY name, with a valid initializer. -/
def astC7 : AST :=
  ⟨some (.complexMessage
    [.localDeclaration "" ⟨some (.lit (.nameLiteral "x")), none, []⟩]
    (.quotedPattern [.text "ok"]))⟩

/-- C6 counterexample: the validator accepts an AST whose matcher has one
selector but a two-key variant, so validate success does not imply matcher
arity consistency. -/
theorem c6_counterexample : astC6.validate = true ∧ astC6.matcherArityOK = false := by
  decide

/-- C6 (amended): on every AST accepted by validate, every matcher has at
least one selector and at least one variant, and every variant has at
least one key; the validator does not compare key counts with the
selector count. -/
theorem c6_amended (a : AST) (h : a.validate = true) (decls : List Declaration)
    (m : Matcher) (hm : a.message = some (.complexMessage decls (.matcher m))) :
    m.matchStatements ≠ [] ∧ m.variants ≠ [] ∧ ∀ v ∈ m.variants, v.keys ≠ [] := by
  unfold AST.validate at h
  rw [hm] at h
  simp only [Message.validate, ComplexBody.validate, Matcher.validate, Variant.validate,
    Bool.and_eq_true, Bool.not_eq_true', List.all_eq_true, List.isEmpty_eq_false] at h
  obtain ⟨⟨⟨⟨h1, h2⟩, _⟩, h4⟩, _⟩ := h
  refine ⟨h1, h2, fun v hv => ?_⟩
  have := h4 v hv
  simp only [Bool.and_eq_true, Bool.not_eq_true', List.isEmpty_eq_false] at this
  exact this.1.1

/-- Witness for the amended C6 statement at a concrete valid matcher AST. -/
theorem c6_amended_witness :
    astC6w.validate = true ∧
    (matcherC6w.matchStatements ≠ [] ∧ matcherC6w.variants ≠ [] ∧
      ∀ v ∈ matcherC6w.variants, v.keys ≠ []) :=
  ⟨by decide, c6_amended astC6w (by decide) [] matcherC6w rfl⟩

/-- C7: the validator accepts an AST that contains the empty variable name,
because LocalDeclaration.validate (ast.go 447-457) validates the
initializing expression twice and never the declared variable — even
though the package documentation promises that a zero-value variable
fails validation. -/
theorem c7_code_bug : astC7.validate = true ∧ "" ∈ astC7.variableNames := by
  decide

end MF2

namespace MF2

-- ---------------------------------------------------------------------------
-- Decimal rendering of float64 values.
--
-- ast.go prints NumberLiteral with strconv.FormatFloat(f, 'f', -1, 64).
-- strconv is outside this repository; its documented contract is: format
-- 'f' is positional (no exponent) and precision -1 uses "the smallest
-- number of digits necessary to represent the value uniquely".  The model
-- below implements that contract over the exact dyadic value: it searches
-- for the fewest significant decimal digits whose reading (binary64
-- round-to-nearest-even) is the value again, and renders them
-- positionally.
-- ---------------------------------------------------------------------------

/-- Decimal digit count of a natural number, fuel-based so that kernel
reduction works; `digitLen 0 = 1`.  Written with a bare `Nat.rec` so the
kernel peels the fuel lazily (the equation-compiler encoding builds an
eager course-of-values tower, which does not reduce on large literals). -/
def digitLenAux : Nat → Nat → Nat :=
  fun fuel => Nat.rec (motive := fun _ => Nat → Nat)
    (fun _ => 0)
    (fun _ ih n => if n < 10 then 1 else ih (n / 10) + 1)
    fuel

theorem digitLenAux_zero (n : Nat) : digitLenAux 0 n = 0 := rfl

theorem digitLenAux_succ (fuel n : Nat) :
    digitLenAux (fuel + 1) n = if n < 10 then 1 else digitLenAux fuel (n / 10) + 1 := rfl

/-- Decimal digit count with always-sufficient fuel. -/
def digitLen (n : Nat) : Nat := digitLenAux (n + 1) n

/-- Value of a decimal pair: `D * 10^γ` as a rational. -/
def decVal (D : Nat) (γ : Int) : ℚ := (D : ℚ) * 10 ^ γ

/-- Value of a dyadic pair: `a * 2^k` as a rational. -/
def dyVal (a : Nat) (k : Int) : ℚ := (a : ℚ) * 2 ^ k

/-- Scaled integer comparison deciding `D·10^γ < a·2^k`. -/
def decLtDy (D : Nat) (γ : Int) (a : Nat) (k : Int) : Bool :=
  D * 10 ^ ((γ + ((-γ).toNat : Int)).toNat) * 2 ^ ((-k).toNat) <
  a * 2 ^ ((k + ((-k).toNat : Int)).toNat) * 10 ^ ((-γ).toNat)

/-- Scaled integer comparison deciding `a·2^k < D·10^γ`. -/
def decGtDy (D : Nat) (γ : Int) (a : Nat) (k : Int) : Bool :=
  a * 2 ^ ((k + ((-k).toNat : Int)).toNat) * 10 ^ ((-γ).toNat) <
  D * 10 ^ ((γ + ((-γ).toNat : Int)).toNat) * 2 ^ ((-k).toNat)

/-- Endpoint below `m·2^e`: the midpoint to the next smaller float64,
written as `(numerator, exponent)` with value `numerator·2^exponent`.
At a power-of-two boundary (mantissa exactly 2^52, not at the minimum
exponent) the gap below is half an ulp. -/
def loPair (m : Nat) (e : Int) : Nat × Int :=
  if m = 2 ^ 52 ∧ e ≠ -1074 then (4 * m - 1, e - 2) else (2 * m - 1, e - 1)

/-- Endpoint above `m·2^e`: the midpoint to the next larger float64. -/
def hiPair (m : Nat) (e : Int) : Nat × Int := (2 * m + 1, e - 1)

/-- Modelled from the spec / strconv contract: the positive decimal
`D·10^γ` reads back (binary64, round-to-nearest-even) as exactly `m·2^e`
iff it lies inside the rounding interval: strictly between the midpoints
to the neighbouring floats, endpoints included exactly when `m` is even
(ties go to the even mantissa). -/
def inRT (m : Nat) (e : Int) (D : Nat) (γ : Int) : Bool :=
  let l := loPair m e
  let h := hiPair m e
  if m % 2 == 0 then !decLtDy D γ l.1 l.2 && !decGtDy D γ h.1 h.2
  else decGtDy D γ l.1 l.2 && decLtDy D γ h.1 h.2

/-- Floor division of `m·2^e` by `10^s`: returns `(quotient, remainder,
denominator)` of the exact integer division `num / den` where
`m·2^e/10^s = num/den`. -/
def floorShift (m : Nat) (e : Int) (s : Int) : Nat × Nat × Nat :=
  let num := m * 2 ^ ((e - s).toNat) * 5 ^ ((-s).toNat)
  let den := 2 ^ ((s - e).toNat) * 5 ^ (s.toNat)
  (num / den, num % den, den)

/-- `⌊(m·2^e)·10^400⌋`, positive for every positive float64 value since
`2^1074 < 10^400`; used to locate the decimal magnitude. -/
def magAux (m : Nat) (e : Int) : Nat := (floorShift m e (-400)).1

/-- The decimal magnitude `V` of `m·2^e`: `10^V ≤ m·2^e < 10^(V+1)`. -/
def mag (m : Nat) (e : Int) : Int := (digitLen (magAux m e) : Int) - 1 - 400

/-- Strip factors of ten: `stripTens fuel n = (n', c)` with `n = n'·10^c`
and (given enough fuel and `n ≥ 1`) `10 ∤ n'`.  Bare `Nat.rec` for lazy
kernel reduction on large fuel literals. -/
def stripTens : Nat → Nat → Nat × Nat :=
  fun fuel => Nat.rec (motive := fun _ => Nat → Nat × Nat)
    (fun n => (n, 0))
    (fun _ ih n =>
      if 10 ≤ n ∧ n % 10 = 0 then ((ih (n / 10)).1, (ih (n / 10)).2 + 1)
      else (n, 0))
    fuel

theorem stripTens_zero (n : Nat) : stripTens 0 n = (n, 0) := rfl

theorem stripTens_succ (fuel n : Nat) :
    stripTens (fuel + 1) n
      = if 10 ≤ n ∧ n % 10 = 0 then
          ((stripTens fuel (n / 10)).1, (stripTens fuel (n / 10)).2 + 1)
        else (n, 0) := rfl

/-- The exact decimal digits of `m·2^e` (for `m ≥ 1`): the unique
`(M, g)` with `m·2^e = M·10^g` and `10 ∤ M`. -/
def exactDigits (m : Nat) (e : Int) : Nat × Int :=
  if 0 ≤ e then
    let n := m * 2 ^ e.toNat
    let p := stripTens n n
    (p.1, (p.2 : Int))
  else
    let n := m * 5 ^ ((-e).toNat)
    let p := stripTens n n
    (p.1, e + (p.2 : Int))

/-- Grid exponent tried at digit budget `d`. -/
def tryS (m : Nat) (e : Int) (d : Nat) : Int := mag m e - (d : Int) + 1

/-- Lower grid neighbour of the value at digit budget `d`. -/
def tryCandLo (m : Nat) (e : Int) (d : Nat) : Nat :=
  (floorShift m e (tryS m e d)).1

/-- Upper grid neighbour of the value at digit budget `d` (equal to the
lower one when the value lies on the grid). -/
def tryCandHi (m : Nat) (e : Int) (d : Nat) : Nat :=
  if (floorShift m e (tryS m e d)).2.1 = 0 then tryCandLo m e d
  else tryCandLo m e d + 1

/-- One search step at a budget of `d` significant digits: try the two
grid neighbours of the value on the grid of multiples of
`10^(mag - d + 1)` and return one that round-trips, preferring the
nearer one (ties to the even digit string). -/
def tryDigits (m : Nat) (e : Int) (d : Nat) : Option (Nat × Int) :=
  if inRT m e (tryCandLo m e d) (tryS m e d) then
    if inRT m e (tryCandHi m e d) (tryS m e d) then
      (if 2 * (floorShift m e (tryS m e d)).2.1 < (floorShift m e (tryS m e d)).2.2 then
        some (tryCandLo m e d, tryS m e d)
      else if (floorShift m e (tryS m e d)).2.2 < 2 * (floorShift m e (tryS m e d)).2.1 then
        some (tryCandHi m e d, tryS m e d)
      else if tryCandLo m e d % 2 = 0 then some (tryCandLo m e d, tryS m e d)
      else some (tryCandHi m e d, tryS m e d))
    else some (tryCandLo m e d, tryS m e d)
  else if inRT m e (tryCandHi m e d) (tryS m e d) then some (tryCandHi m e d, tryS m e d)
  else none

/-- Search upward from digit budget `d`, with fuel; bare `Nat.rec` for
lazy kernel reduction. -/
def searchFrom (m : Nat) (e : Int) : Nat → Nat → Option (Nat × Int) :=
  fun fuel => Nat.rec (motive := fun _ => Nat → Option (Nat × Int))
    (fun _ => none)
    (fun _ ih d =>
      match tryDigits m e d with
      | some p => some p
      | none => ih (d + 1))
    fuel

theorem searchFrom_zero (m : Nat) (e : Int) (d : Nat) : searchFrom m e 0 d = none := rfl

theorem searchFrom_succ (m : Nat) (e : Int) (fuel d : Nat) :
    searchFrom m e (fuel + 1) d
      = match tryDigits m e d with
        | some p => some p
        | none => searchFrom m e fuel (d + 1) := rfl

/-- The shortest uniquely-reading digits of `m·2^e` (`m ≥ 1`): search from
one significant digit up to the exact digit count, at which the exact
representation itself is always a successful candidate. -/
def shortestDigits (m : Nat) (e : Int) : Nat × Int :=
  match searchFrom m e (digitLen (exactDigits m e).1) 1 with
  | some p => p
  | none => exactDigits m e

/-- Strip trailing zeros of a digit/exponent pair. -/
def normDigits (p : Nat × Int) : Nat × Int :=
  let q := stripTens p.1 p.1
  (q.1, p.2 + (q.2 : Int))

/-- Digits of a natural number as characters, fuel-based; bare `Nat.rec`
for lazy kernel reduction on large fuel literals. -/
def natDigitsAux : Nat → Nat → List Char :=
  fun fuel => Nat.rec (motive := fun _ => Nat → List Char)
    (fun _ => [])
    (fun _ ih n =>
      if n < 10 then [Char.ofNat (48 + n)]
      else ih (n / 10) ++ [Char.ofNat (48 + n % 10)])
    fuel

theorem natDigitsAux_zero (n : Nat) : natDigitsAux 0 n = [] := rfl

theorem natDigitsAux_succ (fuel n : Nat) :
    natDigitsAux (fuel + 1) n
      = if n < 10 then [Char.ofNat (48 + n)]
        else natDigitsAux fuel (n / 10) ++ [Char.ofNat (48 + n % 10)] := rfl

/-- Decimal digits of a natural number, most significant first. -/
def natDigits (n : Nat) : List Char := natDigitsAux (n + 1) n

/-- Positional (format 'f') rendering of `c·10^s`, no exponent ever. -/
def renderPositional (c : Nat) (s : Int) : List Char :=
  if 0 ≤ s then natDigits c ++ List.replicate s.toNat '0'
  else if (-s).toNat < (natDigits c).length then
    (natDigits c).take ((natDigits c).length - (-s).toNat) ++ ['.'] ++
      (natDigits c).drop ((natDigits c).length - (-s).toNat)
  else
    ['0', '.'] ++ List.replicate ((-s).toNat - (natDigits c).length) '0' ++ natDigits c

/-- Modelled from the spec / strconv contract:
`strconv.FormatFloat(v, 'f', -1, 64)` — shortest uniquely-reading decimal
digits rendered positionally; `±Inf`/`NaN` render as in strconv. -/
def formatFloatShortest : GoFloat → String
  | .finite neg m e =>
    if m = 0 then (if neg then "-0" else "0")
    else
      let p := normDigits (shortestDigits m e)
      String.mk ((if neg then ['-'] else []) ++ renderPositional p.1 p.2)
  | .inf neg => if neg then "-Inf" else "+Inf"
  | .nan => "NaN"

end MF2

namespace MF2

-- ---------------------------------------------------------------------------
-- Arithmetic lemmas about the decimal helpers.
-- ---------------------------------------------------------------------------

theorem digitLenAux_spec : ∀ fuel n, n < 10 ^ fuel →
    n < 10 ^ digitLenAux fuel n ∧ (1 ≤ n → 10 ^ (digitLenAux fuel n - 1) ≤ n) := by
  intro fuel
  induction fuel with
  | zero =>
    intro n hn
    interval_cases n
    exact ⟨by rw [digitLenAux_zero]; norm_num, by omega⟩
  | succ fuel ih =>
    intro n hn
    by_cases h10 : n < 10
    · refine ⟨?_, ?_⟩ <;> simp only [digitLenAux_succ, if_pos h10]
      · simpa using h10
      · intro h1; simpa using h1
    · have hdiv : n / 10 < 10 ^ fuel := by
        rw [Nat.div_lt_iff_lt_mul (by norm_num)]
        calc n < 10 ^ (fuel + 1) := hn
        _ = 10 ^ fuel * 10 := by ring
      obtain ⟨ih1, ih2⟩ := ih (n / 10) hdiv
      have hpos : 1 ≤ n / 10 := by
        rw [Nat.le_div_iff_mul_le (by norm_num)]; omega
      have hd1 : 1 ≤ digitLenAux fuel (n / 10) := by
        by_contra hc
        have : digitLenAux fuel (n / 10) = 0 := by omega
        rw [this] at ih1; simp at ih1; omega
      refine ⟨?_, fun _ => ?_⟩ <;> simp only [digitLenAux_succ, if_neg h10]
      · have : n < 10 * (n / 10 + 1) := by omega
        calc n < 10 * (n / 10 + 1) := this
        _ ≤ 10 * 10 ^ digitLenAux fuel (n / 10) := by
              have : n / 10 + 1 ≤ 10 ^ digitLenAux fuel (n / 10) := ih1
              omega
        _ = 10 ^ (digitLenAux fuel (n / 10) + 1) := by ring
      · have h2 := ih2 hpos
        have : 10 ^ (digitLenAux fuel (n / 10) - 1) * 10 ≤ n / 10 * 10 := by omega
        have hle : n / 10 * 10 ≤ n := by omega
        calc 10 ^ (digitLenAux fuel (n / 10) + 1 - 1)
            = 10 ^ (digitLenAux fuel (n / 10) - 1) * 10 := by
              rw [← pow_succ]; congr 1; omega
        _ ≤ n / 10 * 10 := this
        _ ≤ n := hle

theorem digitLen_spec (n : Nat) :
    n < 10 ^ digitLen n ∧ (1 ≤ n → 10 ^ (digitLen n - 1) ≤ n) := by
  refine digitLenAux_spec (n + 1) n ?_
  calc n < 2 ^ n := Nat.lt_two_pow n
  _ ≤ 10 ^ n := Nat.pow_le_pow_left (by norm_num) n
  _ ≤ 10 ^ (n + 1) := Nat.pow_le_pow_right (by norm_num) (by omega)

theorem digitLen_pos (n : Nat) : 1 ≤ digitLen n := by
  unfold digitLen
  rw [digitLenAux_succ]
  split <;> omega

theorem digitLen_le_of_lt_pow {n d : Nat} (hd : 1 ≤ d) (h : n < 10 ^ d) :
    digitLen n ≤ d := by
  rcases Nat.eq_zero_or_pos n with h0 | h1
  · subst h0
    have h00 : digitLen 0 = 1 := rfl
    omega
  · obtain ⟨_, hlow⟩ := digitLen_spec n
    have := hlow h1
    by_contra hc
    have hge : d + 1 ≤ digitLen n := by omega
    have : 10 ^ d ≤ 10 ^ (digitLen n - 1) :=
      Nat.pow_le_pow_right (by norm_num) (by omega)
    omega

theorem digitLen_mono {a b : Nat} (h : a ≤ b) : digitLen a ≤ digitLen b := by
  rcases Nat.eq_zero_or_pos a with h0 | h1
  · subst h0
    have h1 : digitLen 0 = 1 := rfl
    have hb := digitLen_pos b
    omega
  · obtain ⟨hb, _⟩ := digitLen_spec b
    exact digitLen_le_of_lt_pow (digitLen_pos b) (by omega)

theorem stripTens_mul_pow : ∀ fuel n, (stripTens fuel n).1 * 10 ^ (stripTens fuel n).2 = n := by
  intro fuel
  induction fuel with
  | zero => intro n; rw [stripTens_zero]; simp
  | succ fuel ih =>
    intro n
    by_cases hc : 10 ≤ n ∧ n % 10 = 0
    · rw [stripTens_succ, if_pos hc]
      show (stripTens fuel (n / 10)).1 * 10 ^ ((stripTens fuel (n / 10)).2 + 1) = n
      have := ih (n / 10)
      calc (stripTens fuel (n / 10)).1 * 10 ^ ((stripTens fuel (n / 10)).2 + 1)
          = (stripTens fuel (n / 10)).1 * 10 ^ (stripTens fuel (n / 10)).2 * 10 := by ring
      _ = n / 10 * 10 := by rw [this]
      _ = n := by omega
    · rw [stripTens_succ, if_neg hc]
      simp

theorem stripTens_not_dvd : ∀ fuel n, 1 ≤ n → n ≤ fuel → ¬ 10 ∣ (stripTens fuel n).1 := by
  intro fuel
  induction fuel with
  | zero => intro n h1 h2; omega
  | succ fuel ih =>
    intro n h1 h2
    by_cases hc : 10 ≤ n ∧ n % 10 = 0
    · rw [stripTens_succ, if_pos hc]
      show ¬ 10 ∣ (stripTens fuel (n / 10)).1
      refine ih (n / 10) ?_ ?_
      · omega
      · have : n / 10 < n := Nat.div_lt_self (by omega) (by norm_num)
        omega
    · rw [stripTens_succ, if_neg hc]
      intro hdvd
      simp only at hdvd
      obtain ⟨k, hk⟩ := hdvd
      exact hc ⟨by omega, by omega⟩

theorem stripTens_pos : ∀ fuel n, 1 ≤ n → 1 ≤ (stripTens fuel n).1 := by
  intro fuel
  induction fuel with
  | zero => intro n h; rw [stripTens_zero]; simpa using h
  | succ fuel ih =>
    intro n h
    by_cases hc : 10 ≤ n ∧ n % 10 = 0
    · rw [stripTens_succ, if_pos hc]
      exact ih (n / 10) (by omega)
    · rw [stripTens_succ, if_neg hc]
      simpa using h

end MF2

namespace MF2

theorem q_zpow_toNat (x : ℚ) (a : Int) (h : 0 ≤ a) : x ^ a.toNat = x ^ a := by
  rw [← zpow_natCast, Int.toNat_of_nonneg h]

theorem pow_split_ten (γ : Int) :
    ((10 : ℚ) ^ ((γ + ((-γ).toNat : Int)).toNat) : ℚ) = 10 ^ γ * 10 ^ ((-γ).toNat) := by
  have h0 : (0 : Int) ≤ γ + ((-γ).toNat : Int) := by omega
  rw [q_zpow_toNat _ _ h0, ← zpow_natCast (10 : ℚ) ((-γ).toNat),
    ← zpow_add₀ (by norm_num : (10 : ℚ) ≠ 0)]

theorem pow_split_two (k : Int) :
    ((2 : ℚ) ^ ((k + ((-k).toNat : Int)).toNat) : ℚ) = 2 ^ k * 2 ^ ((-k).toNat) := by
  have h0 : (0 : Int) ≤ k + ((-k).toNat : Int) := by omega
  rw [q_zpow_toNat _ _ h0, ← zpow_natCast (2 : ℚ) ((-k).toNat),
    ← zpow_add₀ (by norm_num : (2 : ℚ) ≠ 0)]

theorem decLtDy_iff (D : Nat) (γ : Int) (a : Nat) (k : Int) :
    decLtDy D γ a k = true ↔ decVal D γ < dyVal a k := by
  have hpos : (0 : ℚ) < 10 ^ ((-γ).toNat) * 2 ^ ((-k).toNat) := by positivity
  rw [decLtDy, decide_eq_true_iff, ← Nat.cast_lt (α := ℚ)]
  push_cast
  rw [pow_split_ten, pow_split_two]
  have e1 : ((D : ℚ) * (10 ^ γ * 10 ^ ((-γ).toNat)) * 2 ^ ((-k).toNat) : ℚ)
      = decVal D γ * (10 ^ ((-γ).toNat) * 2 ^ ((-k).toNat)) := by
    simp only [decVal]; ring
  have e2 : ((a : ℚ) * (2 ^ k * 2 ^ ((-k).toNat)) * 10 ^ ((-γ).toNat) : ℚ)
      = dyVal a k * (10 ^ ((-γ).toNat) * 2 ^ ((-k).toNat)) := by
    simp only [dyVal]; ring
  rw [e1, e2, mul_lt_mul_right hpos]

theorem decGtDy_iff (D : Nat) (γ : Int) (a : Nat) (k : Int) :
    decGtDy D γ a k = true ↔ dyVal a k < decVal D γ := by
  have hpos : (0 : ℚ) < 10 ^ ((-γ).toNat) * 2 ^ ((-k).toNat) := by positivity
  rw [decGtDy, decide_eq_true_iff, ← Nat.cast_lt (α := ℚ)]
  push_cast
  rw [pow_split_ten, pow_split_two]
  have e1 : ((D : ℚ) * (10 ^ γ * 10 ^ ((-γ).toNat)) * 2 ^ ((-k).toNat) : ℚ)
      = decVal D γ * (10 ^ ((-γ).toNat) * 2 ^ ((-k).toNat)) := by
    simp only [decVal]; ring
  have e2 : ((a : ℚ) * (2 ^ k * 2 ^ ((-k).toNat)) * 10 ^ ((-γ).toNat) : ℚ)
      = dyVal a k * (10 ^ ((-γ).toNat) * 2 ^ ((-k).toNat)) := by
    simp only [dyVal]; ring
  rw [e1, e2, mul_lt_mul_right hpos]

end MF2

namespace MF2

theorem decLtDy_eq_false_iff (D : Nat) (γ : Int) (a : Nat) (k : Int) :
    decLtDy D γ a k = false ↔ dyVal a k ≤ decVal D γ := by
  rw [Bool.eq_false_iff, Ne, decLtDy_iff]
  exact not_lt

theorem decGtDy_eq_false_iff (D : Nat) (γ : Int) (a : Nat) (k : Int) :
    decGtDy D γ a k = false ↔ decVal D γ ≤ dyVal a k := by
  rw [Bool.eq_false_iff, Ne, decGtDy_iff]
  exact not_lt

/-- Rational value of the lower rounding-interval endpoint. -/
def loQ (m : Nat) (e : Int) : ℚ := dyVal (loPair m e).1 (loPair m e).2

/-- Rational value of the upper rounding-interval endpoint. -/
def hiQ (m : Nat) (e : Int) : ℚ := dyVal (hiPair m e).1 (hiPair m e).2

/-- Rational characterisation of membership in the rounding interval. -/
def inRTQ (m : Nat) (e : Int) (x : ℚ) : Prop :=
  if m % 2 = 0 then loQ m e ≤ x ∧ x ≤ hiQ m e else loQ m e < x ∧ x < hiQ m e

theorem inRT_iff (m : Nat) (e : Int) (D : Nat) (γ : Int) :
    inRT m e D γ = true ↔ inRTQ m e (decVal D γ) := by
  unfold inRT inRTQ
  by_cases hpar : m % 2 = 0
  · simp only [hpar, beq_self_eq_true, if_true, Bool.and_eq_true, Bool.not_eq_true',
      decLtDy_eq_false_iff, decGtDy_eq_false_iff, loQ, hiQ]
  · have hb : (m % 2 == 0) = false := by simpa using hpar
    simp only [hb, Bool.false_eq_true, if_false, if_neg hpar, Bool.and_eq_true,
      decLtDy_iff, decGtDy_iff, loQ, hiQ]

end MF2

namespace MF2

theorem floorShift_eq (m : Nat) (e s : Int) :
    ((m * 2 ^ ((e - s).toNat) * 5 ^ ((-s).toNat) : ℕ) : ℚ) * 10 ^ s
      = dyVal m e * ((2 ^ ((s - e).toNat) * 5 ^ (s.toNat) : ℕ) : ℚ) := by
  have h2 : ((2 : ℚ) ^ ((e - s).toNat)) * 2 ^ s = 2 ^ e * 2 ^ ((s - e).toNat) := by
    rw [← zpow_natCast (2 : ℚ) ((e - s).toNat), ← zpow_natCast (2 : ℚ) ((s - e).toNat),
      ← zpow_add₀ (by norm_num : (2 : ℚ) ≠ 0), ← zpow_add₀ (by norm_num : (2 : ℚ) ≠ 0)]
    congr 1
    omega
  have h5 : ((5 : ℚ) ^ ((-s).toNat)) * 5 ^ s = 5 ^ (s.toNat) := by
    rw [← zpow_natCast (5 : ℚ) ((-s).toNat), ← zpow_natCast (5 : ℚ) (s.toNat),
      ← zpow_add₀ (by norm_num : (5 : ℚ) ≠ 0)]
    congr 1
    omega
  have h10 : (10 : ℚ) ^ s = 2 ^ s * 5 ^ s := by
    rw [show (10 : ℚ) = 2 * 5 by norm_num, mul_zpow]
  push_cast
  rw [h10, dyVal]
  calc (m : ℚ) * 2 ^ ((e - s).toNat) * 5 ^ ((-s).toNat) * (2 ^ s * 5 ^ s)
      = (m : ℚ) * (2 ^ ((e - s).toNat) * 2 ^ s) * (5 ^ ((-s).toNat) * 5 ^ s) := by ring
  _ = (m : ℚ) * (2 ^ e * 2 ^ ((s - e).toNat)) * 5 ^ (s.toNat) := by rw [h2, h5]
  _ = (m : ℚ) * 2 ^ e * (2 ^ ((s - e).toNat) * 5 ^ (s.toNat)) := by ring

theorem floorShift_den_pos (m : Nat) (e s : Int) : 0 < (floorShift m e s).2.2 := by
  simp only [floorShift]
  positivity

theorem floorShift_le (m : Nat) (e s : Int) :
    decVal (floorShift m e s).1 s ≤ dyVal m e := by
  have hid := floorShift_eq m e s
  have hdpos : (0 : ℚ) < ((2 ^ ((s - e).toNat) * 5 ^ (s.toNat) : ℕ) : ℚ) := by positivity
  have hle : ((floorShift m e s).1 * (2 ^ ((s - e).toNat) * 5 ^ (s.toNat)) : ℕ)
      ≤ m * 2 ^ ((e - s).toNat) * 5 ^ ((-s).toNat) :=
    Nat.div_mul_le_self _ _
  have h10 : (0 : ℚ) ≤ (10 : ℚ) ^ s := by positivity
  have hcast : (((floorShift m e s).1 : ℚ) * ((2 ^ ((s - e).toNat) * 5 ^ (s.toNat) : ℕ) : ℚ))
      ≤ ((m * 2 ^ ((e - s).toNat) * 5 ^ ((-s).toNat) : ℕ) : ℚ) := by exact_mod_cast hle
  have hmul := mul_le_mul_of_nonneg_right hcast h10
  rw [mul_right_comm, hid] at hmul
  have : decVal (floorShift m e s).1 s * ((2 ^ ((s - e).toNat) * 5 ^ (s.toNat) : ℕ) : ℚ)
      ≤ dyVal m e * ((2 ^ ((s - e).toNat) * 5 ^ (s.toNat) : ℕ) : ℚ) := by
    simp only [decVal]
    linarith [hmul]
  exact le_of_mul_le_mul_right this hdpos

theorem floorShift_lt (m : Nat) (e s : Int) :
    dyVal m e < decVal ((floorShift m e s).1 + 1) s := by
  have hid := floorShift_eq m e s
  have hdpos : (0 : ℚ) < ((2 ^ ((s - e).toNat) * 5 ^ (s.toNat) : ℕ) : ℚ) := by positivity
  have hlt : m * 2 ^ ((e - s).toNat) * 5 ^ ((-s).toNat)
      < ((floorShift m e s).1 + 1) * (2 ^ ((s - e).toNat) * 5 ^ (s.toNat)) := by
    have hdm := Nat.div_add_mod' (m * 2 ^ ((e - s).toNat) * 5 ^ ((-s).toNat))
      (2 ^ ((s - e).toNat) * 5 ^ (s.toNat))
    have hmlt : (m * 2 ^ ((e - s).toNat) * 5 ^ ((-s).toNat)) % (2 ^ ((s - e).toNat) * 5 ^ (s.toNat))
        < 2 ^ ((s - e).toNat) * 5 ^ (s.toNat) :=
      Nat.mod_lt _ (by positivity)
    have hq : (floorShift m e s).1
        = m * 2 ^ ((e - s).toNat) * 5 ^ ((-s).toNat) / (2 ^ ((s - e).toNat) * 5 ^ (s.toNat)) := rfl
    rw [hq, add_mul, one_mul]
    omega
  have h10 : (0 : ℚ) < (10 : ℚ) ^ s := by positivity
  have hcast : ((m * 2 ^ ((e - s).toNat) * 5 ^ ((-s).toNat) : ℕ) : ℚ)
      < (((floorShift m e s).1 + 1 : ℕ) : ℚ) * ((2 ^ ((s - e).toNat) * 5 ^ (s.toNat) : ℕ) : ℚ) := by
    exact_mod_cast hlt
  have hmul := mul_lt_mul_of_pos_right hcast h10
  rw [hid, mul_right_comm] at hmul
  have : dyVal m e * ((2 ^ ((s - e).toNat) * 5 ^ (s.toNat) : ℕ) : ℚ)
      < decVal ((floorShift m e s).1 + 1) s * ((2 ^ ((s - e).toNat) * 5 ^ (s.toNat) : ℕ) : ℚ) := by
    simp only [decVal]
    push_cast
    push_cast at hmul
    linarith [hmul]
  exact lt_of_mul_lt_mul_right this (le_of_lt hdpos)

theorem floorShift_exact (m : Nat) (e s : Int) (h : (floorShift m e s).2.1 = 0) :
    decVal (floorShift m e s).1 s = dyVal m e := by
  have hid := floorShift_eq m e s
  have hdpos : (0 : ℚ) < ((2 ^ ((s - e).toNat) * 5 ^ (s.toNat) : ℕ) : ℚ) := by positivity
  have hmod : m * 2 ^ ((e - s).toNat) * 5 ^ ((-s).toNat)
      = (floorShift m e s).1 * (2 ^ ((s - e).toNat) * 5 ^ (s.toNat)) := by
    have hr : (floorShift m e s).2.1
        = m * 2 ^ ((e - s).toNat) * 5 ^ ((-s).toNat) % (2 ^ ((s - e).toNat) * 5 ^ (s.toNat)) := rfl
    rw [hr] at h
    have hdvd := Nat.dvd_of_mod_eq_zero h
    have hq : (floorShift m e s).1
        = m * 2 ^ ((e - s).toNat) * 5 ^ ((-s).toNat) / (2 ^ ((s - e).toNat) * 5 ^ (s.toNat)) := rfl
    rw [hq]
    exact (Nat.div_mul_cancel hdvd).symm
  have hcast : ((m * 2 ^ ((e - s).toNat) * 5 ^ ((-s).toNat) : ℕ) : ℚ)
      = ((floorShift m e s).1 : ℚ) * ((2 ^ ((s - e).toNat) * 5 ^ (s.toNat) : ℕ) : ℚ) := by
    exact_mod_cast congrArg (Nat.cast (R := ℚ)) hmod
  have h2 : decVal (floorShift m e s).1 s * ((2 ^ ((s - e).toNat) * 5 ^ (s.toNat) : ℕ) : ℚ)
      = dyVal m e * ((2 ^ ((s - e).toNat) * 5 ^ (s.toNat) : ℕ) : ℚ) := by
    rw [← hid, hcast, decVal]
    ring
  exact mul_right_cancel₀ (ne_of_gt hdpos) h2

end MF2

namespace MF2

theorem dyVal_nonneg (a : Nat) (k : Int) : 0 ≤ dyVal a k := by
  unfold dyVal; positivity

theorem dyVal_pos {a : Nat} (k : Int) (ha : 1 ≤ a) : 0 < dyVal a k := by
  unfold dyVal
  have : (0 : ℚ) < (a : ℚ) := by exact_mod_cast ha
  positivity

theorem dyVal_lt_dyVal {a b : Nat} (k : Int) (h : a < b) : dyVal a k < dyVal b k := by
  unfold dyVal
  have hk : (0 : ℚ) < 2 ^ k := by positivity
  have : (a : ℚ) < (b : ℚ) := by exact_mod_cast h
  exact mul_lt_mul_of_pos_right this hk

theorem decVal_le_decVal {a b : Nat} (s : Int) (h : a ≤ b) : decVal a s ≤ decVal b s := by
  unfold decVal
  have hk : (0 : ℚ) ≤ 10 ^ s := by positivity
  have : (a : ℚ) ≤ (b : ℚ) := by exact_mod_cast h
  exact mul_le_mul_of_nonneg_right this hk

theorem decVal_lt_decVal_iff {a b : Nat} (s : Int) : decVal a s < decVal b s ↔ a < b := by
  unfold decVal
  have hk : (0 : ℚ) < 10 ^ s := by positivity
  rw [mul_lt_mul_right hk]
  exact_mod_cast Iff.rfl

theorem decVal_pos {a : Nat} (s : Int) (ha : 1 ≤ a) : 0 < decVal a s := by
  unfold decVal
  have : (0 : ℚ) < (a : ℚ) := by exact_mod_cast ha
  positivity

/-- Re-basing a decimal pair to a smaller exponent. -/
theorem decVal_rebase (D : Nat) (γ s : Int) (h : s ≤ γ) :
    decVal D γ = decVal (D * 10 ^ ((γ - s).toNat)) s := by
  unfold decVal
  push_cast
  rw [← zpow_natCast (10 : ℚ) ((γ - s).toNat), mul_assoc, ← zpow_add₀
    (by norm_num : (10 : ℚ) ≠ 0), show (((γ - s).toNat : Int) + s) = γ by omega]

/-- Re-basing a dyadic pair to a smaller exponent. -/
theorem dyVal_rebase (a : Nat) (k : Int) (t : Nat) :
    dyVal a k = dyVal (a * 2 ^ t) (k - t) := by
  unfold dyVal
  push_cast
  rw [← zpow_natCast (2 : ℚ) t, mul_assoc, ← zpow_add₀ (by norm_num : (2 : ℚ) ≠ 0),
    show ((t : Int) + (k - t)) = k by omega]

theorem lo_lt_self (m : Nat) (e : Int) (hm : 1 ≤ m) : loQ m e < dyVal m e := by
  unfold loQ loPair
  by_cases hc : m = 2 ^ 52 ∧ e ≠ -1074
  · rw [if_pos hc, dyVal_rebase m e 2]
    simp only
    refine dyVal_lt_dyVal _ ?_
    omega
  · rw [if_neg hc, dyVal_rebase m e 1]
    simp only
    refine dyVal_lt_dyVal _ ?_
    omega

theorem self_lt_hi (m : Nat) (e : Int) : dyVal m e < hiQ m e := by
  unfold hiQ hiPair
  rw [dyVal_rebase m e 1]
  simp only
  refine dyVal_lt_dyVal _ ?_
  omega

theorem lo_nonneg (m : Nat) (e : Int) : 0 ≤ loQ m e := dyVal_nonneg _ _

theorem lo_pos (m : Nat) (e : Int) (hm : 1 ≤ m) : 0 < loQ m e := by
  unfold loQ loPair
  by_cases hc : m = 2 ^ 52 ∧ e ≠ -1074
  · rw [if_pos hc]
    exact dyVal_pos _ (by omega)
  · rw [if_neg hc]
    exact dyVal_pos _ (by omega)

theorem self_mem_inRTQ (m : Nat) (e : Int) (hm : 1 ≤ m) : inRTQ m e (dyVal m e) := by
  unfold inRTQ
  have h1 := lo_lt_self m e hm
  have h2 := self_lt_hi m e
  split
  · exact ⟨le_of_lt h1, le_of_lt h2⟩
  · exact ⟨h1, h2⟩

theorem inRTQ_between {m : Nat} {e : Int} {x y z : ℚ}
    (hx : inRTQ m e x) (hy : inRTQ m e y) (h1 : x ≤ z) (h2 : z ≤ y) : inRTQ m e z := by
  unfold inRTQ at *
  by_cases hp : m % 2 = 0
  · rw [if_pos hp] at hx hy ⊢
    exact ⟨le_trans hx.1 h1, le_trans h2 hy.2⟩
  · rw [if_neg hp] at hx hy ⊢
    exact ⟨lt_of_lt_of_le hx.1 h1, lt_of_le_of_lt h2 hy.2⟩

theorem inRTQ_lt_hi {m : Nat} {e : Int} {x : ℚ} (hx : inRTQ m e x) : x ≤ hiQ m e := by
  unfold inRTQ at hx
  split at hx
  · exact hx.2
  · exact le_of_lt hx.2

theorem lo_le_of_inRTQ {m : Nat} {e : Int} {x : ℚ} (hx : inRTQ m e x) : loQ m e ≤ x := by
  unfold inRTQ at hx
  split at hx
  · exact hx.1
  · exact le_of_lt hx.1

theorem inRTQ_pos {m : Nat} {e : Int} {x : ℚ} (hm : 1 ≤ m) (hx : inRTQ m e x) : 0 < x := by
  have hlo := lo_pos m e hm
  have hle := lo_le_of_inRTQ hx
  linarith

end MF2

namespace MF2

theorem mag_spec (m : Nat) (e : Int) (hm : 1 ≤ m) (he : -1074 ≤ e) :
    (10 : ℚ) ^ (mag m e) ≤ dyVal m e ∧ dyVal m e < 10 ^ (mag m e + 1) := by
  have hle := floorShift_le m e (-400)
  have hlt := floorShift_lt m e (-400)
  have hv1 : (2 : ℚ) ^ (-1074 : Int) ≤ dyVal m e := by
    unfold dyVal
    have h1 : (1 : ℚ) ≤ (m : ℚ) := by exact_mod_cast hm
    have h2 : (2 : ℚ) ^ (-1074 : Int) ≤ 2 ^ e := by gcongr <;> norm_num
    nlinarith [zpow_pos (show (0 : ℚ) < 2 by norm_num) e]
  have hpow : (10 : ℚ) ^ (-400 : Int) < 2 ^ (-1074 : Int) := by
    rw [show (-400 : Int) = -(400 : Nat) by norm_num,
      show (-1074 : Int) = -(1074 : Nat) by norm_num, zpow_neg, zpow_neg,
      zpow_natCast, zpow_natCast]
    have hlt2 : ((2 : ℚ) ^ (1074 : Nat)) < 10 ^ (400 : Nat) := by
      exact_mod_cast (by norm_num : (2 ^ 1074 : ℕ) < 10 ^ 400)
    exact inv_lt_inv_of_lt (by positivity) hlt2
  set N := (floorShift m e (-400)).1 with hN
  have hmagAux : magAux m e = N := rfl
  have hN1 : 1 ≤ N := by
    by_contra hc
    have h0 : N = 0 := by omega
    rw [h0] at hlt
    have hvlt : dyVal m e < (10 : ℚ) ^ (-400 : Int) := by
      simpa [decVal] using hlt
    linarith
  obtain ⟨hNlt, hNge'⟩ := digitLen_spec N
  have hNge := hNge' hN1
  have hL1 : 1 ≤ digitLen N := digitLen_pos N
  have hmag : mag m e = (digitLen N : Int) - 1 - 400 := by
    unfold mag
    rw [hmagAux]
  have h400pos : (0 : ℚ) < (10 : ℚ) ^ (-400 : Int) := by positivity
  constructor
  · have hsplit : (10 : ℚ) ^ (mag m e)
        = ((10 : ℚ) ^ (digitLen N - 1 : ℕ)) * 10 ^ (-400 : Int) := by
      rw [← zpow_natCast (10 : ℚ) (digitLen N - 1),
        ← zpow_add₀ (by norm_num : (10 : ℚ) ≠ 0), hmag]
      congr 1
      omega
    have hcast : ((10 : ℚ) ^ (digitLen N - 1 : ℕ)) ≤ (N : ℚ) := by exact_mod_cast hNge
    calc (10 : ℚ) ^ (mag m e) = ((10 : ℚ) ^ (digitLen N - 1 : ℕ)) * 10 ^ (-400 : Int) := hsplit
    _ ≤ (N : ℚ) * 10 ^ (-400 : Int) := by
        exact mul_le_mul_of_nonneg_right hcast (le_of_lt h400pos)
    _ = decVal N (-400) := rfl
    _ ≤ dyVal m e := hle
  · have hsplit : (10 : ℚ) ^ (mag m e + 1)
        = ((10 : ℚ) ^ (digitLen N : ℕ)) * 10 ^ (-400 : Int) := by
      rw [← zpow_natCast (10 : ℚ) (digitLen N),
        ← zpow_add₀ (by norm_num : (10 : ℚ) ≠ 0), hmag]
      congr 1
      omega
    have hcast : ((N : ℚ) + 1) ≤ ((10 : ℚ) ^ (digitLen N : ℕ)) := by exact_mod_cast hNlt
    calc dyVal m e < decVal (N + 1) (-400) := hlt
    _ = ((N : ℚ) + 1) * 10 ^ (-400 : Int) := by simp [decVal]
    _ ≤ ((10 : ℚ) ^ (digitLen N : ℕ)) * 10 ^ (-400 : Int) := by
        exact mul_le_mul_of_nonneg_right hcast (le_of_lt h400pos)
    _ = (10 : ℚ) ^ (mag m e + 1) := hsplit.symm

end MF2

namespace MF2

theorem tryDigits_eq_none_iff (m : Nat) (e : Int) (d : Nat) :
    tryDigits m e d = none ↔
      inRT m e (tryCandLo m e d) (tryS m e d) = false ∧
      inRT m e (tryCandHi m e d) (tryS m e d) = false := by
  unfold tryDigits
  split_ifs with h1 h2 h3 h4 h5 <;> simp_all

theorem tryDigits_some_cases (m : Nat) (e : Int) (d : Nat) (c : Nat) (s' : Int)
    (h : tryDigits m e d = some (c, s')) :
    s' = tryS m e d ∧ (c = tryCandLo m e d ∨ c = tryCandHi m e d) ∧
    inRT m e c s' = true := by
  unfold tryDigits at h
  split_ifs at h with h1 h2 h3 h4 h5 <;> cases h <;>
    first
      | exact ⟨rfl, Or.inl rfl, by assumption⟩
      | exact ⟨rfl, Or.inr rfl, by assumption⟩

end MF2

namespace MF2

theorem decVal_pow_eq (a : Nat) (s : Int) :
    decVal (10 ^ a) s = (10 : ℚ) ^ ((a : Int) + s) := by
  unfold decVal
  push_cast
  rw [← zpow_natCast (10 : ℚ) a, ← zpow_add₀ (by norm_num : (10 : ℚ) ≠ 0)]

/-- If a decimal with at most `d` significant digits round-trips, the grid
search step at budget `d` cannot fail. -/
theorem tryDigits_sound (m : Nat) (e : Int) (hm : 1 ≤ m) (he : -1074 ≤ e)
    (D : Nat) (γ : Int) (hD : 1 ≤ D) (d : Nat) (hd1 : 1 ≤ d)
    (hlen : digitLen D ≤ d) (hRT : inRT m e D γ = true) :
    tryDigits m e d ≠ none := by
  intro hnone
  rw [tryDigits_eq_none_iff] at hnone
  obtain ⟨hLo, hHi⟩ := hnone
  have hx : inRTQ m e (decVal D γ) := (inRT_iff _ _ _ _).mp hRT
  have hv : inRTQ m e (dyVal m e) := self_mem_inRTQ m e hm
  obtain ⟨hmag1, hmag2⟩ := mag_spec m e hm he
  have hql := floorShift_le m e (tryS m e d)
  have hqlt := floorShift_lt m e (tryS m e d)
  have hsdef : tryS m e d = mag m e - (d : Int) + 1 := rfl
  have hLodef : tryCandLo m e d = (floorShift m e (tryS m e d)).1 := rfl
  have hpow_eq : decVal (10 ^ (d - 1)) (tryS m e d) = (10 : ℚ) ^ (mag m e) := by
    rw [decVal_pow_eq]
    congr 1
    rw [hsdef]
    omega
  have hxlt_of : γ < tryS m e d → decVal D γ < (10 : ℚ) ^ (mag m e) := by
    intro hγ
    have hDlt : D < 10 ^ digitLen D := (digitLen_spec D).1
    have h1 : decVal D γ < decVal (10 ^ digitLen D) γ := by
      rw [decVal_lt_decVal_iff]
      exact hDlt
    have h2 : decVal (10 ^ digitLen D) γ = (10 : ℚ) ^ ((digitLen D : Int) + γ) :=
      decVal_pow_eq _ _
    have h3 : ((digitLen D : Int) + γ) ≤ mag m e := by
      rw [hsdef] at hγ
      omega
    calc decVal D γ < decVal (10 ^ digitLen D) γ := h1
    _ = (10 : ℚ) ^ ((digitLen D : Int) + γ) := h2
    _ ≤ (10 : ℚ) ^ (mag m e) := by gcongr <;> norm_num
  have hqge : (10 : ℚ) ^ (mag m e) ≤ decVal (tryCandLo m e d) (tryS m e d) := by
    have h1 : (10 : Nat) ^ (d - 1) < (floorShift m e (tryS m e d)).1 + 1 := by
      rw [← decVal_lt_decVal_iff (tryS m e d), hpow_eq]
      exact lt_of_le_of_lt hmag1 hqlt
    rw [← hpow_eq, hLodef]
    exact decVal_le_decVal _ (by omega)
  rcases le_or_lt (decVal D γ) (dyVal m e) with hxv | hvx
  · have hin : inRTQ m e (decVal (tryCandLo m e d) (tryS m e d)) := by
      rcases le_or_lt (tryS m e d) γ with hγ | hγ
      · have hre : decVal D γ = decVal (D * 10 ^ ((γ - tryS m e d).toNat)) (tryS m e d) :=
          decVal_rebase D γ _ hγ
        have hc0 : D * 10 ^ ((γ - tryS m e d).toNat) < (floorShift m e (tryS m e d)).1 + 1 := by
          rw [← decVal_lt_decVal_iff (tryS m e d), ← hre]
          exact lt_of_le_of_lt hxv hqlt
        have hle2 : decVal D γ ≤ decVal (tryCandLo m e d) (tryS m e d) := by
          rw [hre, hLodef]
          exact decVal_le_decVal _ (by omega)
        exact inRTQ_between hx hv hle2 hql
      · have hxlt := hxlt_of hγ
        exact inRTQ_between hx hv (le_of_lt (lt_of_lt_of_le hxlt hqge)) hql
    have htrue := (inRT_iff m e (tryCandLo m e d) (tryS m e d)).mpr hin
    rw [hLo] at htrue
    exact Bool.noConfusion htrue
  · have hvle : dyVal m e ≤ decVal (tryCandHi m e d) (tryS m e d) := by
      unfold tryCandHi
      split
      · next hr0 =>
          rw [hLodef]
          exact le_of_eq (floorShift_exact m e _ hr0).symm
      · rw [hLodef]
        exact le_of_lt hqlt
    have hxge : decVal (tryCandHi m e d) (tryS m e d) ≤ decVal D γ := by
      rcases le_or_lt (tryS m e d) γ with hγ | hγ
      · have hre : decVal D γ = decVal (D * 10 ^ ((γ - tryS m e d).toNat)) (tryS m e d) :=
          decVal_rebase D γ _ hγ
        have hq_lt_c0 : (floorShift m e (tryS m e d)).1 < D * 10 ^ ((γ - tryS m e d).toNat) := by
          rw [← decVal_lt_decVal_iff (tryS m e d), ← hre]
          exact lt_of_le_of_lt hql hvx
        have huhi_le : tryCandHi m e d ≤ D * 10 ^ ((γ - tryS m e d).toNat) := by
          unfold tryCandHi tryCandLo
          split <;> omega
        rw [hre]
        exact decVal_le_decVal _ huhi_le
      · exfalso
        have hxlt := hxlt_of hγ
        have : dyVal m e < (10 : ℚ) ^ (mag m e) := lt_trans hvx hxlt
        linarith
    have hin : inRTQ m e (decVal (tryCandHi m e d) (tryS m e d)) :=
      inRTQ_between hv hx hvle hxge
    have htrue := (inRT_iff m e (tryCandHi m e d) (tryS m e d)).mpr hin
    rw [hHi] at htrue
    exact Bool.noConfusion htrue

end MF2

namespace MF2

theorem searchFrom_none_all (m : Nat) (e : Int) :
    ∀ fuel d0, searchFrom m e fuel d0 = none →
      ∀ j, d0 ≤ j → j < d0 + fuel → tryDigits m e j = none := by
  intro fuel
  induction fuel with
  | zero => intro d0 _ j h1 h2; omega
  | succ fuel ih =>
    intro d0 h j h1 h2
    rw [searchFrom_succ] at h
    cases htry : tryDigits m e d0 with
    | some p => simp only [htry] at h; exact Option.noConfusion h
    | none =>
      simp only [htry] at h
      rcases Nat.eq_or_lt_of_le h1 with rfl | hlt
      · exact htry
      · exact ih (d0 + 1) h j hlt (by omega)

theorem searchFrom_some_ex (m : Nat) (e : Int) :
    ∀ fuel d0 p, searchFrom m e fuel d0 = some p →
      ∃ d, d0 ≤ d ∧ d < d0 + fuel ∧ tryDigits m e d = some p ∧
        ∀ j, d0 ≤ j → j < d → tryDigits m e j = none := by
  intro fuel
  induction fuel with
  | zero => intro d0 p h; exact Option.noConfusion h
  | succ fuel ih =>
    intro d0 p h
    rw [searchFrom_succ] at h
    cases htry : tryDigits m e d0 with
    | some q =>
      simp only [htry] at h
      refine ⟨d0, le_refl _, by omega, ?_, fun j h1 h2 => by omega⟩
      rw [htry, h]
    | none =>
      simp only [htry] at h
      obtain ⟨d, hd1, hd2, hd3, hd4⟩ := ih (d0 + 1) p h
      refine ⟨d, by omega, by omega, hd3, fun j h1 h2 => ?_⟩
      rcases Nat.eq_or_lt_of_le h1 with rfl | hlt
      · exact htry
      · exact hd4 j hlt h2

theorem exactDigits_spec (m : Nat) (e : Int) (hm : 1 ≤ m) :
    decVal (exactDigits m e).1 (exactDigits m e).2 = dyVal m e ∧
    1 ≤ (exactDigits m e).1 ∧ ¬ 10 ∣ (exactDigits m e).1 := by
  unfold exactDigits
  split
  · next he =>
    have hn : 1 ≤ m * 2 ^ e.toNat := Nat.mul_pos (by omega) (by positivity)
    have hval := stripTens_mul_pow (m * 2 ^ e.toNat) (m * 2 ^ e.toNat)
    refine ⟨?_, stripTens_pos _ _ hn, stripTens_not_dvd _ _ hn (le_refl _)⟩
    simp only
    unfold decVal dyVal
    rw [zpow_natCast (10 : ℚ), ← q_zpow_toNat (2 : ℚ) e he]
    have hvalQ : ((stripTens (m * 2 ^ e.toNat) (m * 2 ^ e.toNat)).1 : ℚ)
        * (10 : ℚ) ^ ((stripTens (m * 2 ^ e.toNat) (m * 2 ^ e.toNat)).2)
        = ((m * 2 ^ e.toNat : ℕ) : ℚ) := by
      exact_mod_cast hval
    rw [hvalQ]
    push_cast
    ring
  · next he =>
    have he' : e < 0 := by omega
    have hn : 1 ≤ m * 5 ^ ((-e).toNat) := Nat.mul_pos (by omega) (by positivity)
    have hval := stripTens_mul_pow (m * 5 ^ ((-e).toNat)) (m * 5 ^ ((-e).toNat))
    refine ⟨?_, stripTens_pos _ _ hn, stripTens_not_dvd _ _ hn (le_refl _)⟩
    simp only
    unfold decVal dyVal
    have h5 : ((5 : ℚ) ^ ((-e).toNat)) = 5 ^ (-e : Int) := q_zpow_toNat (5 : ℚ) (-e) (by omega)
    have hsplit : (10 : ℚ) ^ (e + ((stripTens (m * 5 ^ ((-e).toNat)) (m * 5 ^ ((-e).toNat))).2 : Int))
        = 10 ^ e * 10 ^ ((stripTens (m * 5 ^ ((-e).toNat)) (m * 5 ^ ((-e).toNat))).2 : Nat) := by
      rw [zpow_add₀ (by norm_num : (10 : ℚ) ≠ 0), zpow_natCast]
    rw [hsplit]
    have hcast : (((stripTens (m * 5 ^ ((-e).toNat)) (m * 5 ^ ((-e).toNat))).1 : ℚ)
          * 10 ^ ((stripTens (m * 5 ^ ((-e).toNat)) (m * 5 ^ ((-e).toNat))).2 : Nat))
        = ((m : ℚ) * 5 ^ ((-e).toNat)) := by
      have hvalQ : ((stripTens (m * 5 ^ ((-e).toNat)) (m * 5 ^ ((-e).toNat))).1 : ℚ)
          * (10 : ℚ) ^ ((stripTens (m * 5 ^ ((-e).toNat)) (m * 5 ^ ((-e).toNat))).2)
          = ((m * 5 ^ ((-e).toNat) : ℕ) : ℚ) := by
        exact_mod_cast hval
      rw [hvalQ]
      push_cast
      ring
    calc ((stripTens (m * 5 ^ ((-e).toNat)) (m * 5 ^ ((-e).toNat))).1 : ℚ)
          * ((10 : ℚ) ^ e * 10 ^ ((stripTens (m * 5 ^ ((-e).toNat)) (m * 5 ^ ((-e).toNat))).2 : Nat))
        = (((stripTens (m * 5 ^ ((-e).toNat)) (m * 5 ^ ((-e).toNat))).1 : ℚ)
          * 10 ^ ((stripTens (m * 5 ^ ((-e).toNat)) (m * 5 ^ ((-e).toNat))).2 : Nat)) * 10 ^ e := by
          ring
    _ = (m : ℚ) * 5 ^ ((-e).toNat) * 10 ^ e := by rw [hcast]
    _ = (m : ℚ) * 2 ^ e := by
        rw [h5]
        have h10 : (10 : ℚ) ^ e = 2 ^ e * 5 ^ e := by
          rw [show (10 : ℚ) = 2 * 5 by norm_num, mul_zpow]
        rw [h10]
        have h55 : (5 : ℚ) ^ (-e : Int) * 5 ^ e = 1 := by
          rw [← zpow_add₀ (by norm_num : (5 : ℚ) ≠ 0)]
          simp
        calc (m : ℚ) * 5 ^ (-e : Int) * (2 ^ e * 5 ^ e)
            = (m : ℚ) * 2 ^ e * (5 ^ (-e : Int) * 5 ^ e) := by ring
        _ = (m : ℚ) * 2 ^ e := by rw [h55]; ring

theorem normDigits_spec (c : Nat) (s : Int) (hc : 1 ≤ c) :
    decVal (normDigits (c, s)).1 (normDigits (c, s)).2 = decVal c s ∧
    1 ≤ (normDigits (c, s)).1 ∧ ¬ 10 ∣ (normDigits (c, s)).1 ∧
    (normDigits (c, s)).1 ≤ c := by
  unfold normDigits
  simp only
  have hval := stripTens_mul_pow c c
  refine ⟨?_, stripTens_pos _ _ hc, stripTens_not_dvd _ _ hc (le_refl _), ?_⟩
  · unfold decVal
    have hsplit : (10 : ℚ) ^ (s + ((stripTens c c).2 : Int))
        = 10 ^ s * 10 ^ ((stripTens c c).2 : Nat) := by
      rw [zpow_add₀ (by norm_num : (10 : ℚ) ≠ 0), zpow_natCast]
    rw [hsplit]
    have hcast : (((stripTens c c).1 : ℚ) * 10 ^ ((stripTens c c).2 : Nat)) = (c : ℚ) := by
      exact_mod_cast hval
    calc ((stripTens c c).1 : ℚ) * ((10 : ℚ) ^ s * 10 ^ ((stripTens c c).2 : Nat))
        = (((stripTens c c).1 : ℚ) * 10 ^ ((stripTens c c).2 : Nat)) * 10 ^ s := by ring
    _ = (c : ℚ) * 10 ^ s := by rw [hcast]
  · calc (stripTens c c).1 ≤ (stripTens c c).1 * 10 ^ (stripTens c c).2 :=
        Nat.le_mul_of_pos_right _ (by positivity)
    _ = c := hval

theorem inRT_congr (m : Nat) (e : Int) (D D' : Nat) (γ γ' : Int)
    (h : decVal D γ = decVal D' γ') : inRT m e D γ = inRT m e D' γ' := by
  cases hb : inRT m e D' γ'
  · cases ha : inRT m e D γ
    · rfl
    · have := (inRT_iff m e D γ).mp ha
      rw [h] at this
      have := (inRT_iff m e D' γ').mpr this
      rw [hb] at this
      exact Bool.noConfusion this
  · have := (inRT_iff m e D' γ').mp hb
    rw [← h] at this
    exact (inRT_iff m e D γ).mpr this

end MF2

namespace MF2

theorem tryCand_le (m : Nat) (e : Int) (d : Nat) (hm : 1 ≤ m) (he : -1074 ≤ e)
    (hd1 : 1 ≤ d) :
    tryCandLo m e d < 10 ^ d ∧ tryCandHi m e d ≤ 10 ^ d := by
  obtain ⟨_, hmag2⟩ := mag_spec m e hm he
  have hq : (floorShift m e (tryS m e d)).1 < 10 ^ d := by
    rw [← decVal_lt_decVal_iff (tryS m e d)]
    calc decVal (floorShift m e (tryS m e d)).1 (tryS m e d) ≤ dyVal m e :=
        floorShift_le m e _
    _ < 10 ^ (mag m e + 1) := hmag2
    _ = decVal (10 ^ d) (tryS m e d) := by
        rw [decVal_pow_eq]
        congr 1
        have : tryS m e d = mag m e - (d : Int) + 1 := rfl
        omega
  constructor
  · exact hq
  · have hq2 : tryCandLo m e d < 10 ^ d := hq
    unfold tryCandHi
    split <;> omega

theorem shortestDigits_spec (m : Nat) (e : Int) (hm : 1 ≤ m) (he : -1074 ≤ e) :
    ∃ d : Nat, 1 ≤ d ∧
      inRT m e (shortestDigits m e).1 (shortestDigits m e).2 = true ∧
      (shortestDigits m e).1 ≤ 10 ^ d ∧
      ∀ j, 1 ≤ j → j < d → tryDigits m e j = none := by
  unfold shortestDigits
  cases hs : searchFrom m e (digitLen (exactDigits m e).1) 1 with
  | some p =>
    obtain ⟨d, hd1, _, hd3, hd4⟩ := searchFrom_some_ex m e _ 1 p hs
    obtain ⟨c, s'⟩ := p
    obtain ⟨hseq, hcases, hinrt⟩ := tryDigits_some_cases m e d c s' hd3
    obtain ⟨hlo, hhi⟩ := tryCand_le m e d hm he hd1
    refine ⟨d, hd1, hinrt, ?_, fun j h1 h2 => hd4 j h1 h2⟩
    rcases hcases with rfl | rfl
    · exact Nat.le_of_lt hlo
    · exact hhi
  | none =>
    have hnone := searchFrom_none_all m e _ 1 hs
    obtain ⟨hval, hpos, _⟩ := exactDigits_spec m e hm
    refine ⟨digitLen (exactDigits m e).1, digitLen_pos _, ?_, ?_,
      fun j h1 h2 => hnone j h1 (by omega)⟩
    · apply (inRT_iff _ _ _ _).mpr
      rw [hval]
      exact self_mem_inRTQ m e hm
    · exact le_of_lt (digitLen_spec _).1

/-- Full shortest-digit guarantee about the normalised digits that the
formatter prints: they round-trip, carry no trailing zeros, and no decimal
written with fewer digits round-trips. -/
theorem normShortest_spec (m : Nat) (e : Int) (hm : 1 ≤ m) (he : -1074 ≤ e) :
    1 ≤ (normDigits (shortestDigits m e)).1 ∧
    ¬ 10 ∣ (normDigits (shortestDigits m e)).1 ∧
    inRT m e (normDigits (shortestDigits m e)).1 (normDigits (shortestDigits m e)).2 = true ∧
    ∀ D γ, 1 ≤ D → digitLen D < digitLen (normDigits (shortestDigits m e)).1 →
      inRT m e D γ = false := by
  obtain ⟨d, hd1, hinrt, hbound, hnone⟩ := shortestDigits_spec m e hm he
  have hc1 : 1 ≤ (shortestDigits m e).1 := by
    by_contra hc
    have h0 : (shortestDigits m e).1 = 0 := by omega
    have hq := (inRT_iff m e _ _).mp hinrt
    rw [h0] at hq
    have : decVal 0 (shortestDigits m e).2 = 0 := by simp [decVal]
    rw [this] at hq
    have := inRTQ_pos hm hq
    exact lt_irrefl _ this
  have heta : ((shortestDigits m e).1, (shortestDigits m e).2) = shortestDigits m e :=
    Prod.mk.eta
  obtain ⟨hval, hpos, hdvd, hle⟩ := normDigits_spec (shortestDigits m e).1
    (shortestDigits m e).2 hc1
  rw [heta] at hval hpos hdvd hle
  have hinrt' : inRT m e (normDigits (shortestDigits m e)).1
      (normDigits (shortestDigits m e)).2 = true := by
    rw [inRT_congr m e _ _ _ _ hval, ← heta]
    exact hinrt
  have hklen : digitLen (normDigits (shortestDigits m e)).1 ≤ d := by
    have h1 : (normDigits (shortestDigits m e)).1 ≤ 10 ^ d := le_trans hle hbound
    rcases Nat.lt_or_ge (normDigits (shortestDigits m e)).1 (10 ^ d) with h2 | h2
    · exact digitLen_le_of_lt_pow hd1 h2
    · exfalso
      have : (normDigits (shortestDigits m e)).1 = 10 ^ d := by omega
      exact hdvd (this ▸ dvd_pow_self 10 (by omega))
  refine ⟨hpos, hdvd, hinrt', fun D γ hD hlen => ?_⟩
  by_contra hRT
  have hRT' : inRT m e D γ = true := by
    cases h : inRT m e D γ
    · exact absurd h hRT
    · rfl
  have hjlt : digitLen D < d := by omega
  exact tryDigits_sound m e hm he D γ hD (digitLen D) (digitLen_pos D) (le_refl _) hRT'
    (hnone (digitLen D) (digitLen_pos D) hjlt)

end MF2

namespace MF2

/-- A character the positional float format may emit: digit, point, sign. -/
def plainChar (ch : Char) : Bool := ch.isDigit || ch == '.' || ch == '-'

/-- Plain positional decimal: digits, at most a point and a sign — in
particular no exponent marker, so never scientific notation. -/
def isPlainDecimal (s : String) : Bool := s.data.all plainChar

theorem natDigitsAux_plain : ∀ fuel n, ∀ ch ∈ natDigitsAux fuel n, plainChar ch = true := by
  intro fuel
  induction fuel with
  | zero => intro n ch h; rw [natDigitsAux_zero] at h; simp at h
  | succ fuel ih =>
    intro n ch h
    rw [natDigitsAux_succ] at h
    split at h
    · next h10 =>
      simp only [List.mem_singleton] at h
      subst h
      interval_cases n <;> decide
    · rcases List.mem_append.mp h with h1 | h1
      · exact ih _ ch h1
      · simp only [List.mem_singleton] at h1
        subst h1
        have h10 : n % 10 < 10 := Nat.mod_lt _ (by norm_num)
        set r := n % 10 with hr
        interval_cases r <;> decide

theorem renderPositional_plain (c : Nat) (s : Int) :
    ∀ ch ∈ renderPositional c s, plainChar ch = true := by
  intro ch h
  unfold renderPositional at h
  split at h
  · rcases List.mem_append.mp h with h1 | h1
    · exact natDigitsAux_plain _ _ ch h1
    · rw [List.eq_of_mem_replicate h1]
      decide
  · split at h
    · rcases List.mem_append.mp h with h1 | h1
      · rcases List.mem_append.mp h1 with h2 | h2
        · exact natDigitsAux_plain _ _ ch (List.mem_of_mem_take h2)
        · simp only [List.mem_singleton] at h2
          subst h2
          decide
      · exact natDigitsAux_plain _ _ ch (List.mem_of_mem_drop h1)
    · rcases List.mem_append.mp h with h1 | h1
      · rcases List.mem_append.mp h1 with h2 | h2
        · simp only [List.mem_cons, List.mem_singleton] at h2
          rcases h2 with rfl | rfl | h3
          · decide
          · decide
          · simp at h3
        · rw [List.eq_of_mem_replicate h2]
          decide
      · exact natDigitsAux_plain _ _ ch h1

theorem formatFloatShortest_plain (neg : Bool) (m : Nat) (e : Int) :
    isPlainDecimal (formatFloatShortest (.finite neg m e)) = true := by
  show isPlainDecimal (if m = 0 then (if neg then "-0" else "0")
    else String.mk ((if neg then ['-'] else []) ++
      renderPositional (normDigits (shortestDigits m e)).1
        (normDigits (shortestDigits m e)).2)) = true
  by_cases h0 : m = 0
  · rw [if_pos h0]
    cases neg <;> decide
  · rw [if_neg h0]
    unfold isPlainDecimal
    rw [List.all_eq_true]
    intro ch hch
    rcases List.mem_append.mp hch with h1 | h1
    · cases neg
      · simp at h1
      · simp at h1
        subst h1
        decide
    · exact renderPositional_plain _ _ ch h1

end MF2

namespace MF2

-- ---------------------------------------------------------------------------
-- Canonical printers (ast.go String() methods) needed by the evaluator.
-- ---------------------------------------------------------------------------

/-- Text escape (ast.go Text.String): backslash-escapes backslash and
braces. -/
def escapeText (s : String) : String :=
  String.mk (s.data.flatMap fun c =>
    if c = '\\' then ['\\', '\\']
    else if c = '{' then ['\\', '{']
    else if c = '}' then ['\\', '}']
    else [c])

/-- Quoted-literal escape (ast.go QuotedLiteral.String): backslash-escapes
backslash and bar. -/
def escapeQuoted (s : String) : String :=
  String.mk (s.data.flatMap fun c =>
    if c = '\\' then ['\\', '\\']
    else if c = '|' then ['\\', '|']
    else [c])

/-- Literal printers (ast.go String() on QuotedLiteral, NameLiteral,
NumberLiteral).  A quoted literal prints WITH its bar delimiters; a number
prints via strconv.FormatFloat(f, 'f', -1, 64). -/
def Literal.string : Literal → String
  | .quotedLiteral s => "|" ++ escapeQuoted s ++ "|"
  | .nameLiteral s => s
  | .numberLiteral f => formatFloatShortest f

/-- Variable printer (ast.go Variable.String): `$name`. -/
def variableString (name : String) : String := "$" ++ name

/-- C8: for every finite, non-NaN NumberLiteral the printed form is a plain
positional decimal (no scientific notation), its digits read back as
exactly the stored value, and no decimal with fewer digits does; the
float64 value of the scientific lexeme 1e3 is 8796093022208000·2^(-43) =
1000 exactly, and it prints as "1000". -/
theorem c8_number_literal_shortest (neg : Bool) (m : Nat) (e : Int) (h : GoFloat.wf m e) :
    isPlainDecimal (Literal.string (.numberLiteral (.finite neg m e))) = true ∧
    (1 ≤ m →
      inRT m e (normDigits (shortestDigits m e)).1 (normDigits (shortestDigits m e)).2 = true ∧
      (∀ D γ, 1 ≤ D → digitLen D < digitLen (normDigits (shortestDigits m e)).1 →
        inRT m e D γ = false) ∧
      Literal.string (.numberLiteral (.finite neg m e)) =
        String.mk ((if neg then ['-'] else []) ++
          renderPositional (normDigits (shortestDigits m e)).1
            (normDigits (shortestDigits m e)).2)) ∧
    (m = 0 → Literal.string (.numberLiteral (.finite neg m e)) = if neg then "-0" else "0") ∧
    dyVal 8796093022208000 (-43) = 1000 ∧
    Literal.string (.numberLiteral (.finite false 8796093022208000 (-43))) = "1000" := by
  have he : -1074 ≤ e := by
    rcases h with ⟨_, _, h1, _⟩ | ⟨_, h1⟩ <;> omega
  refine ⟨formatFloatShortest_plain neg m e, fun hm => ?_, fun h0 => ?_, ?_, ?_⟩
  · obtain ⟨_, _, hinrt, hshort⟩ := normShortest_spec m e hm he
    refine ⟨hinrt, hshort, ?_⟩
    show (if m = 0 then (if neg then "-0" else "0")
      else String.mk ((if neg then ['-'] else []) ++
        renderPositional (normDigits (shortestDigits m e)).1
          (normDigits (shortestDigits m e)).2)) = _
    rw [if_neg (by omega)]
  · show (if m = 0 then (if neg then "-0" else "0")
      else String.mk ((if neg then ['-'] else []) ++
        renderPositional (normDigits (shortestDigits m e)).1
          (normDigits (shortestDigits m e)).2)) = _
    rw [if_pos h0]
  · unfold dyVal
    have h2 : (2 : ℚ) ^ (-43 : Int) = 1 / 2 ^ (43 : Nat) := by
      rw [zpow_neg, ← zpow_natCast (2 : ℚ) 43]
      norm_num
    rw [h2]
    norm_num
  · decide

/-- Witness for C8: hypotheses discharged at the float64 value
8796093022208000·2^(-43) = 1000, the value of the lexeme `1e3`. -/
theorem c8_number_literal_shortest_witness :
    GoFloat.wf 8796093022208000 (-43) ∧
    isPlainDecimal (Literal.string (.numberLiteral
      (.finite false 8796093022208000 (-43)))) = true ∧
    Literal.string (.numberLiteral (.finite false 8796093022208000 (-43))) = "1000" :=
  ⟨by decide,
   (c8_number_literal_shortest false 8796093022208000 (-43) (by decide)).1,
   (c8_number_literal_shortest false 8796093022208000 (-43) (by decide)).2.2.2.2⟩

end MF2

namespace MF2

-- ---------------------------------------------------------------------------
-- Evaluator value and error model (template/template.go).
-- ---------------------------------------------------------------------------

/-- Go runtime values (`any`) flowing through the evaluator: the claims
only exercise strings, float64 and nil. -/
inductive GoValue where
  | str (s : String)
  | num (f : GoFloat)
  | nil
deriving DecidableEq, Repr

/-- Sentinel error kinds of template.go (the Err* values plus
mf2.ErrOperandMismatch); `other` carries the message of non-sentinel
errors verbatim. -/
inductive ErrK where
  | synErr
  | unresolvedVariable
  | unknownFunction
  | duplicateOptionName
  | unsupportedExpression
  | formatting
  | unsupportedStatement
  | duplicateDeclaration
  | missingSelectorAnnot
  | selection
  | operandMismatch
  | other (msg : String)
deriving DecidableEq, Repr

/-- A Go error chain abstracted to the list of sentinel kinds present, in
join order; `[]` is the nil error.  `errors.Is e k` is membership, and
`fmt.Errorf("...: %w", e)` wrapping preserves the kinds. -/
abbrev GoErr := List ErrK

/-- The executer's variable environment (`executer.variables`), newest
binding first. -/
abbrev Env := List (String × GoValue)

/-- Map lookup. -/
def envLookup (env : Env) (k : String) : Option GoValue :=
  match env with
  | [] => none
  | (k', v) :: rest => if k' = k then some v else envLookup rest k

/-- Map insert/overwrite. -/
def envInsert (env : Env) (k : String) (v : GoValue) : Env := (k, v) :: env

/-- Locales exercised by the spec's examples. -/
inductive Locale where
  | enUS
  | lv
deriving DecidableEq, Repr

/-- Resolved options of an annotation, in textual order. -/
abbrev Options := List (String × GoValue)

/-- Option map lookup. -/
def optLookup (opts : Options) (k : String) : Option GoValue :=
  match opts with
  | [] => none
  | (k', v) :: rest => if k' = k then some v else optLookup rest k

/-- A registry entry (template.go `registry.F` / `RegistryFunc`): optional
format and match callables. -/
structure RegistryFunc where
  format : Option (GoValue → Options → Locale → Except GoErr GoValue)
  matchF : Option (GoValue → Options → Locale → Except GoErr GoValue)

-- ---------------------------------------------------------------------------
-- fmt.Sprint on the modelled values.
-- ---------------------------------------------------------------------------

/-- Decimal string of a natural number. -/
def natDecString (n : Nat) : String := String.mk (natDigits n)

/-- Modelled from the Go fmt contract: `fmt.Sprint` on a float64 uses %g:
shortest digits, scientific notation when the decimal exponent is below
-4 or at least 21. -/
def fmtSprintFloat : GoFloat → String
  | .finite neg m e =>
    if m = 0 then (if neg then "-0" else "0")
    else
      let p := normDigits (shortestDigits m e)
      let x : Int := (digitLen p.1 : Int) + p.2 - 1
      if x < -4 ∨ 21 ≤ x then
        let mant :=
          match natDigits p.1 with
          | [] => "0"
          | d :: rest =>
            String.mk (if rest.isEmpty then [d] else d :: '.' :: rest)
        let eabs := (if x < 0 then -x else x).toNat
        let edigits := if eabs < 10 then "0" ++ natDecString eabs else natDecString eabs
        (if neg then "-" else "") ++ mant ++ "e" ++ (if x < 0 then "-" else "+") ++ edigits
      else
        String.mk ((if neg then ['-'] else []) ++ renderPositional p.1 p.2)
  | .inf neg => if neg then "-Inf" else "+Inf"
  | .nan => "NaN"

/-- fmt.Sprint on the modelled `any` values. -/
def fmtSprint : GoValue → String
  | .str s => s
  | .num f => fmtSprintFloat f
  | .nil => "<nil>"

-- ---------------------------------------------------------------------------
-- The builtin string function (template/registry_string.go).
-- ---------------------------------------------------------------------------

/-- stringFunc (registry_string.go): nil input and options are rejected;
strings and float64 go through fmt.Sprint; other types would be cast. -/
def stringFunc (input : GoValue) (options : Options) (_ : Locale) :
    Except GoErr GoValue :=
  match input with
  | .nil => .error [.other "string function requires input, got nil"]
  | _ =>
    if 0 < options.length then .error [.other "string function takes no options"]
    else
      match input with
      | .str s => .ok (.str s)
      | .num f => .ok (.str (fmtSprintFloat f))
      | .nil => .error [.other "unreachable"]

-- ---------------------------------------------------------------------------
-- The builtin number function (template/registry_number.go).
-- ---------------------------------------------------------------------------

/-- parseNumberInput: nil is an operand mismatch; castAs[float64] succeeds
exactly on float64 values (Go reflect conversion; strings are not
convertible to float64). -/
def parseNumberInput (input : GoValue) : Except GoErr GoFloat :=
  match input with
  | .nil => .error [.operandMismatch]
  | .num f => .ok f
  | .str _ => .error [.other "convert string to float64", .operandMismatch]

/-- The parsed option set of the number function (registry_number.go
`numberOptions`); currency is kept as its code string. -/
structure NumberOptions where
  compactDisplay : String
  currencyDisplay : String
  currencySign : String
  notationStyle : String
  numberingSystem : String
  signDisplay : String
  style : String
  unitDisplay : String
  selectOpt : String
  useGrouping : String
  currency : String
  unit : Int
  minimumIntegerDigits : Int
  minimumFractionDigits : Int
  maximumFractionDigits : Int
  minimumSignificantDigits : Int
  maximumSignificantDigits : Int
deriving DecidableEq, Repr

/-- Exact integer value of a float64, when it has one. -/
def goFloatToInt : GoFloat → Option Int
  | .finite neg m e =>
    if 0 ≤ e then
      some ((if neg then -1 else 1) * (m * 2 ^ e.toNat : Nat))
    else if m % 2 ^ ((-e).toNat) = 0 then
      some ((if neg then -1 else 1) * (m / 2 ^ ((-e).toNat) : Nat))
    else none
  | _ => none

/-- Digits-only string to Nat. -/
def parseNatDigits : List Char → Option Nat
  | [] => none
  | cs => cs.foldl (fun acc c =>
      match acc with
      | none => none
      | some n => if c.isDigit then some (n * 10 + (c.toNat - 48)) else none)
      (some 0)

/-- Modelled from the spec: the registry's typed accessor GetString with a
default and an enumerated-choice (`oneOf`) check, yielding an
unsupported-option error on mismatch. -/
def optGetString (opts : Options) (name dflt : String) (allowed : List String) :
    Except GoErr String :=
  match optLookup opts name with
  | none => .ok dflt
  | some (.str s) =>
    if s ∈ allowed then .ok s
    else .error [.other ("unsupported value for option " ++ name)]
  | some _ => .error [.other ("invalid type for option " ++ name)]

/-- Modelled from the spec: the registry's typed accessor GetInt with a
default and an optional lower-bound (`eqOrGreaterThan`) check; numeric
strings are accepted. -/
def optGetInt (opts : Options) (name : String) (dflt : Int) (lowBound : Option Int) :
    Except GoErr Int :=
  let checked := fun (i : Int) =>
    match lowBound with
    | none => (Except.ok i : Except GoErr Int)
    | some lb => if lb ≤ i then .ok i else .error [.other ("invalid value for option " ++ name)]
  match optLookup opts name with
  | none => .ok dflt
  | some (.num f) =>
    match goFloatToInt f with
    | some i => checked i
    | none => .error [.other ("invalid value for option " ++ name)]
  | some (.str s) =>
    match parseNatDigits s.data with
    | some n => checked (n : Int)
    | none => .error [.other ("invalid value for option " ++ name)]
  | some _ => .error [.other ("invalid type for option " ++ name)]

/-- The option keys accepted by the number function. -/
def numberOptionKeys : List String :=
  ["compactDisplay", "currency", "currencyDisplay", "currencySign", "notation",
   "numberingSystem", "signDisplay", "style", "unit", "unitDisplay",
   "minimumIntegerDigits", "minimumFractionDigits", "maximumFractionDigits",
   "minimumSignificantDigits", "maximumSignificantDigits", "select", "useGrouping"]

/-- parseNumberOptions (registry_number.go): key whitelist, enumerated
string options, currency parsing, integer options with bounds;
maximumFractionDigits defaults to 3 for decimal style and 0 for percent. -/
def parseNumberOptions (opts : Options) : Except GoErr NumberOptions := do
  match opts.find? (fun kv => ¬ kv.1 ∈ numberOptionKeys) with
  | some kv => .error [.other ("unsupported option: " ++ kv.1)]
  | none => pure ()
  let selectOpt ← optGetString opts "select" "plural" ["plural", "ordinal", "exact"]
  let useGrouping ← optGetString opts "useGrouping" "auto" ["auto", "always", "never", "min2"]
  let compactDisplay ← optGetString opts "compactDisplay" "short" ["short", "long"]
  let currency ←
    match optLookup opts "currency" with
    | none => pure ""
    | some (.str s) =>
      -- Modelled from the spec: currency.ParseISO accepts three-letter codes.
      if s.length = 3 ∧ s.data.all Char.isAlpha then
        if s = "XXX" then Except.error ([.other "empty currency value"] : GoErr)
        else pure s
      else Except.error ([.other ("invalid currency value: " ++ s)] : GoErr)
    | some _ => Except.error ([.other "invalid currency type"] : GoErr)
  let currencyDisplay ← optGetString opts "currencyDisplay" ""
    ["code", "symbol", "narrowSymbol", "name"]
  let currencySign ← optGetString opts "currencySign" "standard" ["standard", "accounting"]
  let notationStyle ← optGetString opts "notation" "standard"
    ["standard", "scientific", "engineering", "compact"]
  let numberingSystem ← optGetString opts "numberingSystem" ""
    ["arab", "arabext", "bali", "beng", "deva", "fullwide", "gujr", "guru", "hanidec",
     "khmr", "knda", "laoo", "latn", "limb", "mlym", "mong", "mymr", "orya", "tamldec",
     "telu", "thai", "tibt"]
  let signDisplay ← optGetString opts "signDisplay" "auto"
    ["auto", "always", "exceptZero", "negative", "never"]
  let style ← optGetString opts "style" "decimal" ["decimal", "percent"]
  let unit ← optGetInt opts "unit" 0 none
  let unitDisplay ← optGetString opts "unitDisplay" "short" ["short", "narrow"]
  let minimumIntegerDigits ← optGetInt opts "minimumIntegerDigits" 1 (some 1)
  let minimumFractionDigits ← optGetInt opts "minimumFractionDigits" 0 (some 0)
  let maxFracDefault : Int := if style = "decimal" then 3 else 0
  let maximumFractionDigits ← optGetInt opts "maximumFractionDigits" maxFracDefault (some 0)
  let minimumSignificantDigits ← optGetInt opts "minimumSignificantDigits" 1 (some 1)
  let maximumSignificantDigits ← optGetInt opts "maximumSignificantDigits" (-1) none
  return { compactDisplay, currencyDisplay, currencySign, notationStyle, numberingSystem,
           signDisplay, style, unitDisplay, selectOpt, useGrouping, currency, unit,
           minimumIntegerDigits, minimumFractionDigits, maximumFractionDigits,
           minimumSignificantDigits, maximumSignificantDigits }

end MF2

namespace MF2

-- ---------------------------------------------------------------------------
-- Modelled from the spec: golang.org/x/text locale-aware decimal formatting
-- (message.NewPrinter(locale).Sprint(number.Decimal/Percent ...)).  x/text
-- first converts the float64 to its shortest decimal digits (strconv), then
-- rounds half-to-even at maximumSignificantDigits / maximumFractionDigits,
-- pads to the minimum digit counts, groups the integer digits, and localises
-- the separators.
-- ---------------------------------------------------------------------------

/-- Round `a / b` half to even (`b > 0`). -/
def rhe (a b : Nat) : Nat :=
  let q := a / b
  let r := a % b
  if b < 2 * r ∨ (2 * r = b ∧ q % 2 = 1) then q + 1 else q

/-- Round the decimal `num / 10^scale` to `k` fraction digits half-to-even,
returning the scaled integer `≈ |v|·10^k`. -/
def decRoundFrac (num scale k : Nat) : Nat :=
  if scale ≤ k then num * 10 ^ (k - scale)
  else rhe num (10 ^ (scale - k))

/-- Round `num` (paired with some scale) to at most `maxSig` significant
digits, half to even, keeping the scale. -/
def sigRound (num : Nat) (maxSig : Int) : Nat :=
  if 1 ≤ maxSig ∧ (maxSig.toNat : Nat) < digitLen num then
    rhe num (10 ^ (digitLen num - maxSig.toNat)) * 10 ^ (digitLen num - maxSig.toNat)
  else num

/-- Left-pad a digit list with zeros to the given width. -/
def leftPadZeros (w : Nat) (ds : List Char) : List Char :=
  List.replicate (w - ds.length) '0' ++ ds

/-- Drop trailing `'0'` digits but keep at least `minLen` characters. -/
def dropTrailingZeros : List Char → Nat → List Char :=
  fun ds minLen =>
    let r := ds.reverse
    (r.drop (min (r.takeWhile (· = '0')).length (r.length - min minLen r.length))).reverse

/-- Insert the group separator before every block of three digits, fuel-based. -/
def groupDigitsAux : Nat → String → List Char → String
  | 0, _, ds => String.mk ds
  | fuel + 1, sep, ds =>
    if ds.length ≤ 3 then String.mk ds
    else groupDigitsAux fuel sep (ds.take (ds.length - 3)) ++ sep ++
      String.mk (ds.drop (ds.length - 3))

/-- Group integer digits in blocks of three. -/
def groupDigits (sep : String) (ds : List Char) : String :=
  groupDigitsAux ds.length sep ds

/-- The locale's decimal separator. -/
def decimalSep : Locale → String
  | .enUS => "."
  | .lv => ","

/-- The locale's group separator. -/
def groupSep : Locale → String
  | .enUS => ","
  | .lv => " "

/-- Shortest decimal digits of `|v|` as a pair `(num, scale)` with
`|v| ≈ num / 10^scale`. -/
def shortestDecPair (m : Nat) (e : Int) : Nat × Nat :=
  if m = 0 then (0, 0)
  else
    let p := normDigits (shortestDigits m e)
    if 0 ≤ p.2 then (p.1 * 10 ^ p.2.toNat, 0) else (p.1, (-p.2).toNat)

/-- Modelled from the spec: the x/text decimal rendering of one float64
with the parsed number options; `percent` selects number.Percent. -/
def formatNumber (locale : Locale) (opts : NumberOptions) (f : GoFloat)
    (percent : Bool) : String :=
  match f with
  | .nan => "NaN"
  | .inf neg => (if neg then "-∞" else "∞") ++ (if percent then "%" else "")
  | .finite neg m e =>
    let p := shortestDecPair m e
    let num := if percent then p.1 * 100 else p.1
    let scale := p.2
    let num := sigRound num opts.maximumSignificantDigits
    let maxFrac := opts.maximumFractionDigits.toNat
    let minFrac := opts.minimumFractionDigits.toNat
    let minInt := opts.minimumIntegerDigits.toNat
    let N := decRoundFrac num scale maxFrac
    let intDs := leftPadZeros minInt (natDigits (N / 10 ^ maxFrac))
    let fracDs := dropTrailingZeros
      (leftPadZeros maxFrac (natDigits (N % 10 ^ maxFrac))) minFrac
    let fracDs := if N % 10 ^ maxFrac = 0 ∧ minFrac = 0 then [] else fracDs
    let intStr := if opts.useGrouping = "never" then String.mk intDs
      else groupDigits (groupSep locale) intDs
    (if neg ∧ N ≠ 0 then "-" else "") ++ intStr ++
      (if fracDs.isEmpty then "" else decimalSep locale ++ String.mk fracDs) ++
      (if percent then "%" else "")

/-- value >= 0 under Go float64 comparison (negative zero counts). -/
def goFloatGeZero : GoFloat → Bool
  | .finite neg m _ => !neg || m = 0
  | .inf neg => !neg
  | .nan => false

/-- value > 0 under Go float64 comparison. -/
def goFloatPos : GoFloat → Bool
  | .finite neg m _ => !neg && m ≠ 0
  | .inf neg => !neg
  | .nan => false

/-- value < 0 under Go float64 comparison. -/
def goFloatNeg : GoFloat → Bool
  | .finite neg m _ => neg && m ≠ 0
  | .inf neg => neg
  | .nan => false

/-- numberFunc (registry_number.go): parse input and options, format by
style, then apply the signDisplay post-processing. -/
def numberFunc (input : GoValue) (options : Options) (locale : Locale) :
    Except GoErr GoValue := do
  let value ← parseNumberInput input
  let opts ← parseNumberOptions options
  let result ←
    match opts.style with
    | "decimal" => pure (formatNumber locale opts value false)
    | "percent" => pure (formatNumber locale opts value true)
    | s => Except.error ([.other ("style '" ++ s ++ "' is not implemented")] : GoErr)
  let result :=
    if opts.signDisplay = "always" then
      if goFloatGeZero value then "+" ++ result else result
    else if opts.signDisplay = "exceptZero" then
      if goFloatPos value then "+" ++ result else result
    else if opts.signDisplay = "never" then
      if goFloatNeg value then result.drop 1 else result
    else result
  return .str result

/-- The default function registry wired by template.New (registry.New is
outside src/; modelled from the spec's builtin list with the
implementations present in src: string has Format and Match,
number registers Format only — registry_number.go lines 18-20). -/
def defaultRegistry : List (String × RegistryFunc) :=
  [("string", ⟨some stringFunc, some stringFunc⟩),
   ("number", ⟨some numberFunc, none⟩)]

/-- Registry lookup. -/
def regLookup (reg : List (String × RegistryFunc)) (k : String) :
    Option RegistryFunc :=
  match reg with
  | [] => none
  | (k', v) :: rest => if k' = k then some v else regLookup rest k

end MF2
